import Mathlib

/-!
# Side-info bus (`modules/common/sideinfo_bus.c`)

A shallow embedding of the timestamp-indexed ring buffer that carries decoder
side information to the overlay filter, followed by the properties proved
about it.

Modelling conventions

* A `vlc_side_entry_t *` list head is an `entry_list`: either the chain of
  entries it points at (`chain []` is the NULL pointer) or `released`, a stale
  pointer whose nodes were already handed to `free`.  Following a stale
  pointer is a `Fault`.
* `vlc_tick_t` is `int64_t`: differences and `llabs` are taken in `Int` and
  wrapped to 64 bits by `int64`.
* The `size_t` cursors `head` and `tail` only ever move by `++`; they are
  natural numbers (a wrap of `++` would need 2^64 calls).  Their unsigned
  difference `tail - head` is `size_diff`, which wraps as in C when
  `head > tail`.
* `malloc` is driven by an oracle `alloc : Nat → Bool` telling whether the
  k-th allocation request of one call succeeds.
* The mutex and the `fprintf` tracing have no effect on the state and are
  left out.
* `CLOCK_FREQ` comes from the VLC core headers and is a parameter.
-/

namespace SideinfoBus

/-! ## Data model (`sideinfo_bus.h`) -/

/-- Memory errors of the C program that the model tracks. -/
inductive Fault where
  | use_after_free
  | double_free
deriving DecidableEq, Repr

/-- One side-data item; `next` is rendered by list position, `data` holds the
bytes of the heap buffer (`[]` for NULL). -/
structure vlc_side_entry_t where
  type : Nat
  flags : Nat
  size : Nat
  data : List Nat
deriving DecidableEq, Repr

/-- What a `vlc_side_entry_t *` list head refers to. -/
inductive entry_list where
  | chain (es : List vlc_side_entry_t)
  | released
deriving DecidableEq, Repr

/-- Side packet: the record exchanged through the bus, also the slot type. -/
structure vlc_side_packet_t where
  pts : Int
  head : entry_list
  codec_id : Int
deriving DecidableEq, Repr

/-- Ring capacity, `#define SIDEINFO_BUS_CAP 256`. -/
abbrev SIDEINFO_BUS_CAP : Nat := 256

/-- The bus, `struct sidebus` without its lock. -/
structure sidebus_t where
  ring : Fin SIDEINFO_BUS_CAP → vlc_side_packet_t
  head : Nat
  tail : Nat
  size : Nat

/-- Physical slot of a logical index: `i % SIDEINFO_BUS_CAP`. -/
def slot_index (i : Nat) : Fin SIDEINFO_BUS_CAP :=
  ⟨i % SIDEINFO_BUS_CAP, Nat.mod_lt i (by decide)⟩

/-- Assignment to one slot of the ring. -/
def ring_set (ring : Fin SIDEINFO_BUS_CAP → vlc_side_packet_t) (k : Fin SIDEINFO_BUS_CAP)
    (s : vlc_side_packet_t) : Fin SIDEINFO_BUS_CAP → vlc_side_packet_t :=
  fun j => if j = k then s else ring j

/-! ## 64-bit ticks -/

/-- Largest `int64_t`. -/
def INT64_MAX : Int := 9223372036854775807

/-- Wrap an integer to the `int64_t` range (two's complement). -/
def int64 (x : Int) : Int :=
  (x + 9223372036854775808) % 18446744073709551616 - 9223372036854775808

/-- The C library `llabs` on `int64_t`. -/
def llabs (x : Int) : Int :=
  int64 (if x < 0 then -x else x)

/-- Tolerance `#define SIDEINFO_PTS_TOL (8 * CLOCK_FREQ / 1000)`, with C's
truncating division. -/
def SIDEINFO_PTS_TOL (CLOCK_FREQ : Int) : Int :=
  Int.tdiv (int64 (8 * CLOCK_FREQ)) 1000

/-! ## Entry lists -/

/-- Releasing a list, `sidebus_free_entry_list`: a no-op on NULL, every node
of a live chain is freed, and walking a stale pointer is a fault.  The result
is what the (unchanged) pointer refers to afterwards. -/
def sidebus_free_entry_list : entry_list → Except Fault entry_list
  | .chain [] => .ok (.chain [])
  | .chain (_ :: _) => .ok .released
  | .released => .error .double_free

/-- The copy made of one entry: `type`, `flags`, `size` are assigned, `data`
stays NULL when `size` is 0 and is otherwise a `memcpy` of `size` bytes. -/
def clone_entry (s : vlc_side_entry_t) : vlc_side_entry_t :=
  { type := s.type, flags := s.flags, size := s.size,
    data := if s.size ≠ 0 then s.data.take s.size else [] }

/-- The loop of `deep_clone_entry_list`, from the k-th allocation request on;
`none` when a `malloc` fails (the entries built so far are freed). -/
def deep_clone_loop (alloc : Nat → Bool) : Nat → List vlc_side_entry_t →
    Option (List vlc_side_entry_t)
  | _, [] => some []
  | k, s :: rest =>
    if alloc k = false then none
    else if s.size ≠ 0 then
      if alloc (k + 1) = false then none
      else (deep_clone_loop alloc (k + 2) rest).map (fun t => clone_entry s :: t)
    else (deep_clone_loop alloc (k + 1) rest).map (fun t => clone_entry s :: t)

/-- Deep copy, `deep_clone_entry_list`: the new chain, `[]` (NULL) for an
empty source or after an allocation failure. -/
def deep_clone_entry_list (alloc : Nat → Bool) : entry_list →
    Except Fault (List vlc_side_entry_t)
  | .chain es => .ok ((deep_clone_loop alloc 0 es).getD [])
  | .released => .error .use_after_free

/-! ## Buffer creation -/

/-- A slot of zeroed memory. -/
def zero_slot : vlc_side_packet_t :=
  { pts := 0, head := .chain [], codec_id := 0 }

/-- The bus built by the first `sidebus_acquire`: `calloc` zeroes every slot,
`head = tail = 0`, `size = SIDEINFO_BUS_CAP`. -/
def sidebus_new : sidebus_t :=
  { ring := fun _ => zero_slot, head := 0, tail := 0, size := SIDEINFO_BUS_CAP }

/-! ## Push -/

/-- The `size_t` difference `tail - head` (64-bit): exact while
`head ≤ tail`, wrapped modulo 2^64 when `head` is ahead of `tail`. -/
def size_diff (tail head : Nat) : Nat :=
  if head ≤ tail then tail - head else 18446744073709551616 - (head - tail)

/-- Insertion, `sidebus_push`.  Returns the status code and the bus. -/
def sidebus_push (alloc : Nat → Bool) (bus : Option sidebus_t)
    (inp : Option vlc_side_packet_t) : Except Fault (Int × Option sidebus_t) :=
  match bus, inp with
  | some b, some p =>
    let write_idx := slot_index b.tail
    let evicted : Except Fault (Fin SIDEINFO_BUS_CAP → vlc_side_packet_t) :=
      if b.size ≤ size_diff b.tail b.head then
        let read_idx := slot_index b.head
        match sidebus_free_entry_list (b.ring read_idx).head with
        | .ok h => .ok (ring_set b.ring read_idx { b.ring read_idx with head := h })
        | .error f => .error f
      else .ok b.ring
    match evicted with
    | .error f => .error f
    | .ok ring1 =>
      match deep_clone_entry_list alloc p.head with
      | .error f => .error f
      | .ok cloned =>
        let stored : Except Fault entry_list :=
          if cloned = [] then sidebus_free_entry_list (.chain cloned) else .ok (.chain cloned)
        match stored with
        | .error f => .error f
        | .ok h =>
          .ok (0, some { b with
            ring := ring_set ring1 write_idx { pts := p.pts, codec_id := p.codec_id, head := h },
            tail := b.tail + 1 })
  | _, _ => .ok (-1, bus)

/-! ## Pop -/

/-- Loop variables of the scan in `sidebus_pop`. -/
structure pop_best where
  best_idx : Int
  best_absdiff : Int
  best_diff : Int
deriving DecidableEq, Repr

/-- One iteration of the scan, at logical index `i`. -/
def pop_scan_step (ring : Fin SIDEINFO_BUS_CAP → vlc_side_packet_t) (pts : Int)
    (st : pop_best) (i : Nat) : pop_best :=
  let s := ring (slot_index i)
  let diff := int64 (s.pts - pts)
  let ad := llabs diff
  if ad < st.best_absdiff ∨ (ad = st.best_absdiff ∧ diff ≤ 0 ∧ st.best_diff > 0) then
    { best_absdiff := ad, best_diff := diff, best_idx := ((i % SIDEINFO_BUS_CAP : Nat) : Int) }
  else st

/-- The scan `for (size_t i = bus->head; i < bus->tail; ++i)`. -/
def pop_scan (b : sidebus_t) (pts : Int) : pop_best :=
  (List.range' b.head (b.tail - b.head)).foldl (pop_scan_step b.ring pts)
    { best_idx := -1, best_absdiff := INT64_MAX, best_diff := 0 }

/-- The tail of `sidebus_pop` from the `// Deep copy` comment on, for the
chosen physical slot `k`: clone the slot's list into `out`; when the clone is
non-NULL fill `out`, free the slot's list, zero its `pts` and advance `head`.
The function reports a hit either way. -/
def pop_deliver (alloc : Nat → Bool) (b : sidebus_t) (o : vlc_side_packet_t)
    (k : Fin SIDEINFO_BUS_CAP) :
    Except Fault (Bool × Option sidebus_t × Option vlc_side_packet_t) :=
  match deep_clone_entry_list alloc (b.ring k).head with
  | .error f => .error f
  | .ok cloned =>
    if cloned ≠ [] then
      match sidebus_free_entry_list (b.ring k).head with
      | .error f => .error f
      | .ok h =>
        .ok (true,
          some { b with
            ring := ring_set b.ring k { b.ring k with head := h, pts := 0 },
            head := b.head + 1 },
          some { pts := (b.ring k).pts, codec_id := (b.ring k).codec_id, head := .chain cloned })
    else .ok (true, some b, some { o with head := .chain cloned })

/-- Nearest-timestamp retrieval, `sidebus_pop`.  Returns the result, the bus
and the caller's output record. -/
def sidebus_pop (CLOCK_FREQ : Int) (alloc : Nat → Bool) (bus : Option sidebus_t)
    (out : Option vlc_side_packet_t) (pts : Int) :
    Except Fault (Bool × Option sidebus_t × Option vlc_side_packet_t) :=
  match bus, out with
  | some b, some o =>
    let st := pop_scan b pts
    if st.best_idx < 0 then .ok (false, some b, some o)
    else
      let k := slot_index st.best_idx.toNat
      let best_pts := (b.ring k).pts
      let diff := int64 (best_pts - pts)
      let ad := llabs diff
      if ad > SIDEINFO_PTS_TOL CLOCK_FREQ then .ok (false, some b, some o)
      else pop_deliver alloc b o k
  | _, _ => .ok (false, bus, out)

/-! ## Lifecycle (`sidebus_acquire`, `sidebus_release`) -/

/-- Modelled from the spec: the libvlc root object, as far as the bus uses it.
`sideinfo_bus` is the address variable "sideinfo-bus" of the root's variable
bag (`none` while the variable does not exist, otherwise its value, with
`some none` for NULL); `heap` gives the contents of every `sidebus_t` obtained
from `calloc`, by address, and `brk` is the next address `calloc` hands
out. -/
structure libvlc_int_t where
  sideinfo_bus : Option (Option Nat)
  heap : Nat → Option sidebus_t
  brk : Nat

/-- Modelled from the spec: `var_Create(root, "sideinfo-bus", VLC_VAR_ADDRESS)`
makes sure the variable exists; a new variable holds NULL, an existing one
keeps its value. -/
def var_Create (root : libvlc_int_t) : libvlc_int_t :=
  match root.sideinfo_bus with
  | none => { root with sideinfo_bus := some none }
  | some _ => root

/-- Modelled from the spec: `var_GetAddress(root, "sideinfo-bus")` reads the
pointer held by the variable (NULL when there is no such variable). -/
def var_GetAddress (root : libvlc_int_t) : Option Nat :=
  match root.sideinfo_bus with
  | some v => v
  | none => none

/-- Modelled from the spec: `var_SetAddress(root, "sideinfo-bus", v)` stores
a pointer in the existing variable. -/
def var_SetAddress (root : libvlc_int_t) (v : Option Nat) : libvlc_int_t :=
  match root.sideinfo_bus with
  | some _ => { root with sideinfo_bus := some v }
  | none => root

/-- A write through a bus pointer: the object at address `p` becomes `b`.
This is the only way `sidebus_push` and `sidebus_pop` act on the root. -/
def bus_store (root : libvlc_int_t) (p : Nat) (b : sidebus_t) : libvlc_int_t :=
  { root with heap := fun q => if q = p then some b else root.heap q }

/-- Create-or-fetch, `sidebus_acquire`; `calloc_ok` tells whether the
allocation of a new bus succeeds.  Returns the root and the bus pointer. -/
def sidebus_acquire (calloc_ok : Bool) (root : libvlc_int_t) : libvlc_int_t × Option Nat :=
  let r1 := var_Create root
  match var_GetAddress r1 with
  | some p => (r1, some p)
  | none =>
    if calloc_ok then
      let p := r1.brk
      let r2 := bus_store { r1 with brk := r1.brk + 1 } p sidebus_new
      (var_SetAddress r2 (some p), some p)
    else (r1, none)

/-- The loop of `sidebus_release` over the slot numbers still to visit:
`sidebus_free_entry_list(bus->ring[i].head)`, the pointer being left in
place. -/
def release_slots (ring : Fin SIDEINFO_BUS_CAP → vlc_side_packet_t) :
    List Nat → Except Fault (Fin SIDEINFO_BUS_CAP → vlc_side_packet_t)
  | [] => .ok ring
  | i :: rest =>
    match sidebus_free_entry_list (ring (slot_index i)).head with
    | .ok h => release_slots (ring_set ring (slot_index i) { ring (slot_index i) with head := h }) rest
    | .error f => .error f

/-- Teardown, `sidebus_release`: frees the list of each of the 256 slots; the
bus itself and the root's variable are kept. -/
def sidebus_release (root : libvlc_int_t) : Except Fault libvlc_int_t :=
  let r1 := var_Create root
  match var_GetAddress r1 with
  | none => .ok r1
  | some p =>
    match r1.heap p with
    | none => .ok r1
    | some b =>
      match release_slots b.ring (List.range SIDEINFO_BUS_CAP) with
      | .ok ring => .ok (bus_store r1 p { b with ring := ring })
      | .error f => .error f

/-- A root on which no bus variable exists yet. -/
def root_empty : libvlc_int_t :=
  { sideinfo_bus := none, heap := fun _ => none, brk := 1 }

/-- A pop directly followed by a second pop on the bus the first one
leaves; the result is that of the second pop. -/
def pop_after_pop (CLOCK_FREQ : Int) (alloc : Nat → Bool) (b : sidebus_t)
    (o : vlc_side_packet_t) (pts1 pts2 : Int) :
    Except Fault (Bool × Option sidebus_t × Option vlc_side_packet_t) :=
  match sidebus_pop CLOCK_FREQ alloc (some b) (some o) pts1 with
  | .ok (_, b1, _) => sidebus_pop CLOCK_FREQ alloc b1 (some o) pts2
  | .error f => .error f

/-! ## Observations and drivers used in the statements -/

/-- Logical indices of the window `[head, tail)`, in scan order. -/
def window (b : sidebus_t) : List Nat :=
  List.range' b.head (b.tail - b.head)

/-- Signed distance `slot.pts - pts` of the slot at logical index `i`. -/
def slot_diff (b : sidebus_t) (pts : Int) (i : Nat) : Int :=
  (b.ring (slot_index i)).pts - pts

/-- Every distance met by the scan is one on which the 64-bit subtraction
and `llabs` are exact and below the initial `best_absdiff`. -/
@[reducible] def ticks_in_range (b : sidebus_t) (pts : Int) : Prop :=
  ∀ i ∈ window b, |slot_diff b pts i| < INT64_MAX

/-- A push on `b` frees no stale pointer: when the bus is full, the list head
in the slot at `head % CAP` has not been released yet. -/
@[reducible] def evictee_live (b : sidebus_t) : Prop :=
  b.size ≤ b.tail - b.head → (b.ring (slot_index b.head)).head ≠ .released

/-- The oracle of a heap that never runs out. -/
def alloc_ok : Nat → Bool :=
  fun _ => true

/-- An entry whose buffer holds exactly `size` bytes. -/
@[reducible] def entry_wf (e : vlc_side_entry_t) : Prop :=
  e.data.length = e.size

/-- Result flag of a pop that ran to completion. -/
def pop_hit (r : Except Fault (Bool × Option sidebus_t × Option vlc_side_packet_t)) :
    Option Bool :=
  match r with
  | .ok (h, _, _) => some h
  | .error _ => none

/-- Output record after a pop that ran to completion. -/
def pop_out (r : Except Fault (Bool × Option sidebus_t × Option vlc_side_packet_t)) :
    Option vlc_side_packet_t :=
  match r with
  | .ok (_, _, o) => o
  | .error _ => none

/-- Bus after a pop that ran to completion. -/
def pop_bus (r : Except Fault (Bool × Option sidebus_t × Option vlc_side_packet_t)) :
    Option sidebus_t :=
  match r with
  | .ok (_, b, _) => b
  | .error _ => none

/-- A run of `sidebus_push` calls on the same bus, one per record, with no
pop in between. -/
def push_all (alloc : Nat → Bool) : sidebus_t → List vlc_side_packet_t →
    Except Fault sidebus_t
  | b, [] => .ok b
  | b, p :: ps =>
    match sidebus_push alloc (some b) (some p) with
    | .ok (_, some b1) => push_all alloc b1 ps
    | .ok (_, none) => .ok b
    | .error f => .error f

/-- What the loop variables hold after the indices `seen`. -/
def scan_inv (b : sidebus_t) (pts : Int) (seen : List Nat) (st : pop_best) : Prop :=
  (seen = [] ∧ st = { best_idx := -1, best_absdiff := INT64_MAX, best_diff := 0 }) ∨
  ∃ i ∈ seen,
    st = { best_idx := ((i % SIDEINFO_BUS_CAP : Nat) : Int),
           best_absdiff := |slot_diff b pts i|, best_diff := slot_diff b pts i } ∧
    (∀ j ∈ seen, |slot_diff b pts i| ≤ |slot_diff b pts j|) ∧
    (∀ j ∈ seen, |slot_diff b pts j| = |slot_diff b pts i| → slot_diff b pts j ≤ 0 →
      slot_diff b pts i ≤ 0)

/-- A push directly followed by a pop on the bus it leaves. -/
def push_pop (CLOCK_FREQ : Int) (alloc : Nat → Bool) (b : sidebus_t)
    (p : vlc_side_packet_t) (o : vlc_side_packet_t) (pts : Int) :
    Except Fault (Bool × Option sidebus_t × Option vlc_side_packet_t) :=
  match sidebus_push alloc (some b) (some p) with
  | .ok (_, b1) => sidebus_pop CLOCK_FREQ alloc b1 (some o) pts
  | .error f => .error f

/-! ## Concrete data for the evaluated examples -/

/-- A two-byte entry. -/
def entry_a : vlc_side_entry_t :=
  { type := 1, flags := 0, size := 2, data := [7, 8] }

/-- A one-byte entry. -/
def entry_b : vlc_side_entry_t :=
  { type := 2, flags := 0, size := 1, data := [9] }

/-- The bus after one push of `(5, codec 1, [entry_a])` on a new bus. -/
def bus_one : sidebus_t :=
  { sidebus_new with
    ring := ring_set sidebus_new.ring (slot_index 0)
      { pts := 5, head := .chain [entry_a], codec_id := 1 },
    tail := 1 }

/-- A bus whose window holds two records, at timestamps 91 and 109. -/
def bus_two : sidebus_t :=
  { sidebus_new with
    ring := ring_set
      (ring_set sidebus_new.ring (slot_index 0)
        { pts := 91, head := .chain [entry_a], codec_id := 1 })
      (slot_index 1) { pts := 109, head := .chain [entry_b], codec_id := 2 },
    tail := 2 }

/-- The same two records pushed in the other order. -/
def bus_two_swapped : sidebus_t :=
  { sidebus_new with
    ring := ring_set
      (ring_set sidebus_new.ring (slot_index 0)
        { pts := 109, head := .chain [entry_b], codec_id := 2 })
      (slot_index 1) { pts := 91, head := .chain [entry_a], codec_id := 1 },
    tail := 2 }

/-- The bus after one push of `(5, codec 2, NULL list)` on a new bus. -/
def bus_empty_payload : sidebus_t :=
  { sidebus_new with
    ring := ring_set sidebus_new.ring (slot_index 0)
      { pts := 5, head := .chain [], codec_id := 2 },
    tail := 1 }

/-- Two records at 91 and 109 where the earlier one has a NULL list. -/
def bus_two_null : sidebus_t :=
  { sidebus_new with
    ring := ring_set
      (ring_set sidebus_new.ring (slot_index 0)
        { pts := 91, head := .chain [], codec_id := 1 })
      (slot_index 1) { pts := 109, head := .chain [entry_b], codec_id := 2 },
    tail := 2 }

/-- The status of a run: the fault that stopped it, if any. -/
def fault_of {α : Type} (r : Except Fault α) : Option Fault :=
  match r with
  | .ok _ => none
  | .error f => some f

/-- An observation made on the bus a run ends with. -/
def observe {α : Type} (r : Except Fault sidebus_t) (f : sidebus_t → α) : Option α :=
  match r with
  | .ok b => some (f b)
  | .error _ => none

/-- The records `(t i, E i, c i)` for `i < n`, in push order. -/
def stream (t : Nat → Int) (E : Nat → List vlc_side_entry_t) (c : Nat → Int) (n : Nat) :
    List vlc_side_packet_t :=
  (List.range n).map (fun i => { pts := t i, head := .chain (E i), codec_id := c i })

/-- The slot contents a push of the i-th record of a stream leaves. -/
def stored (t : Nat → Int) (E : Nat → List vlc_side_entry_t) (c : Nat → Int) (i : Nat) :
    vlc_side_packet_t :=
  { pts := t i, head := .chain ((E i).map clone_entry), codec_id := c i }

/-- The sample stream: `n` records, 9 ticks apart, each with one entry. -/
def records (n : Nat) : List vlc_side_packet_t :=
  stream (fun i => 9 * (i : Int)) (fun _ => [entry_a]) (fun _ => 3) n

/-- The sample stream of 257 records with a NULL list on the last one. -/
def records_null_last : List vlc_side_packet_t :=
  stream (fun i => 9 * (i : Int)) (fun i => if i = 256 then [] else [entry_a]) (fun _ => 3) 257

end SideinfoBus

/-!
# Overlay drawing (`modules/video_filter/sideinfo_overlay.c`)

Modelling conventions

* `int` arithmetic whose result leaves the 32-bit range is undefined in C:
  `int_chk` turns it into the fault `int_overflow`.
* The Y plane is rendered by the log of the stores made into it, oldest
  first, each store being `(x, y, value)` for the byte at
  `y * i_pitch + x`.
* The endless loop of `draw_line_Y` runs on an iteration budget.
-/

namespace SideinfoOverlay

/-- Ways a run of the drawing code can leave defined behaviour; `out_of_fuel`
is the budget of the model running out, not a behaviour of the C code. -/
inductive DrawFault where
  | int_overflow
  | out_of_bounds
  | out_of_fuel
deriving DecidableEq, Repr

/-- Largest `int`. -/
def INT_MAX : Int := 2147483647

/-- Smallest `int`. -/
def INT_MIN : Int := -2147483648

/-- The value of an `int` expression, when it fits. -/
def int_chk (v : Int) : Except DrawFault Int :=
  if INT_MIN ≤ v ∧ v ≤ INT_MAX then .ok v else .error .int_overflow

/-- A picture: visible width and height as read into `int`, and the stores
made into plane 0. -/
structure picture_t where
  W : Int
  H : Int
  Y : List (Int × Int × Nat)
deriving DecidableEq, Repr

/-- Guarded pixel store, `put_Y`. -/
def put_Y (pic : picture_t) (x y : Int) (yval : Nat) : picture_t :=
  if x < 0 ∨ y < 0 ∨ x ≥ pic.W ∨ y ≥ pic.H then pic
  else { pic with Y := pic.Y ++ [(x, y, yval)] }

/-- The body of the loop of `draw_line_Y` after the end test: from
`(x0, y0, err)` to the next `(x0, y0, err)`. -/
def line_step (dx dy sx sy x0 y0 err : Int) : Except DrawFault (Int × Int × Int) :=
  (int_chk (2 * err)).bind fun e2 =>
    (if e2 ≥ dy then
        (int_chk (err + dy)).bind fun e => (int_chk (x0 + sx)).bind fun x => .ok (e, x)
      else .ok (err, x0)).bind fun ex =>
      if e2 ≤ dx then
        (int_chk (ex.1 + dx)).bind fun e => (int_chk (y0 + sy)).bind fun y => .ok (ex.2, y, e)
      else .ok (ex.2, y0, ex.1)

/-- The loop `for (;;)` of `draw_line_Y`, on a budget of iterations. -/
def draw_line_loop (dx dy sx sy x1 y1 : Int) (yval : Nat) :
    Nat → picture_t → Int → Int → Int → Except DrawFault picture_t
  | 0, _, _, _, _ => .error .out_of_fuel
  | fuel + 1, pic, x0, y0, err =>
    if x0 = x1 ∧ y0 = y1 then .ok (put_Y pic x0 y0 yval)
    else
      match line_step dx dy sx sy x0 y0 err with
      | .ok (x, y, e) => draw_line_loop dx dy sx sy x1 y1 yval fuel (put_Y pic x0 y0 yval) x y e
      | .error f => .error f

/-- Bresenham line, `draw_line_Y`. -/
def draw_line_Y (fuel : Nat) (pic : picture_t) (x0 y0 x1 y1 : Int) (yval : Nat) :
    Except DrawFault picture_t :=
  (int_chk (x1 - x0)).bind fun ddx =>
    (int_chk |ddx|).bind fun dx =>
      (int_chk (y1 - y0)).bind fun ddy =>
        (int_chk |ddy|).bind fun ady =>
          (int_chk (dx + -ady)).bind fun err =>
            draw_line_loop dx (-ady) (if x0 < x1 then 1 else -1) (if y0 < y1 then 1 else -1)
              x1 y1 yval fuel pic x0 y0 err

/-- The stores of `rh` successive `memset(row, yval, rw)`, the first row
starting at `(x0, y0)`. -/
def fill_rows (x0 y0 : Int) (yval : Nat) (rw rh : Nat) : List (Int × Int × Nat) :=
  (List.range rh).flatMap fun (j : Nat) =>
    (List.range rw).map fun (i : Nat) => (x0 + (i : Int), y0 + (j : Int), yval)

/-- Filled rectangle, `draw_solid_rect_Y`. -/
def draw_solid_rect_Y (pic : picture_t) (x y w h : Int) (yval : Nat) :
    Except DrawFault picture_t :=
  (int_chk (x + w)).bind fun xw =>
    (int_chk (y + h)).bind fun yh =>
      let x0 := if xw < x then xw else x
      let x1 := if xw < x then x else xw
      let y0 := if yh < y then yh else y
      let y1 := if yh < y then y else yh
      if x0 ≥ pic.W ∨ y0 ≥ pic.H ∨ x1 ≤ 0 ∨ y1 ≤ 0 then .ok pic
      else
        let x0c := if x0 < 0 then 0 else x0
        let y0c := if y0 < 0 then 0 else y0
        let x1c := if x1 > pic.W then pic.W else x1
        let y1c := if y1 > pic.H then pic.H else y1
        let rw := x1c - x0c
        let rh := y1c - y0c
        if rw ≤ 0 ∨ rh ≤ 0 then .ok pic
        else .ok { pic with Y := pic.Y ++ fill_rows x0c y0c yval rw.toNat rh.toNat }

/-- Read of `vals[i]` in a table of `uint16_t`. -/
def read_val (vals : List Nat) (i : Nat) : Except DrawFault Nat :=
  match vals[i]? with
  | some v => .ok v
  | none => .error .out_of_bounds

/-- The loop `for (i = 0; i < total; ++i) if (vals[i] > vmax) vmax = vals[i]`
over the indices still to visit. -/
def res_size_vmax (vals : List Nat) : List Nat → Nat → Except DrawFault Nat
  | [], vmax => .ok vmax
  | i :: rest, vmax =>
    (read_val vals i).bind fun v => res_size_vmax vals rest (if v > vmax then v else vmax)

/-- The luma `uint8_t y = 16 + (uint8_t)((219u * v) / vmax)`. -/
def res_size_luma (vmax v : Nat) : Nat :=
  (16 + ((219 * v) % 4294967296 / vmax) % 256) % 256

/-- One row `by` of the block loop of `draw_res_size_payload`: the arguments
`(x, ypix, w, h, y)` of the calls of `draw_solid_rect_Y` for the columns
still to visit, `blk_idx` being the running block index. -/
def res_size_row (W H B : Int) (vals : List Nat) (vmax : Nat) (row : Nat) :
    List Nat → Nat → Except DrawFault (List (Int × Int × Int × Int × Nat))
  | [], _ => .ok []
  | bx :: rest, blk_idx =>
    (read_val vals blk_idx).bind fun v =>
      (res_size_row W H B vals vmax row rest (blk_idx + 1)).bind fun calls =>
        .ok (((bx : Int) * B, (row : Int) * B,
              (if (bx : Int) * B + B ≤ W then B else W - (bx : Int) * B),
              (if (row : Int) * B + B ≤ H then B else H - (row : Int) * B),
              res_size_luma vmax v) :: calls)

/-- The rows still to visit; each row ends with one more `++blk_idx`. -/
def res_size_rows (W H B : Int) (vals : List Nat) (vmax : Nat) (bw : Nat) :
    List Nat → Nat → Except DrawFault (List (Int × Int × Int × Int × Nat))
  | [], _ => .ok []
  | row :: rest, blk_idx =>
    (res_size_row W H B vals vmax row (List.range bw) blk_idx).bind fun calls =>
      (res_size_rows W H B vals vmax bw rest (blk_idx + bw + 1)).bind fun more =>
        .ok (calls ++ more)

/-- The calls of `draw_solid_rect_Y` made by `draw_res_size_payload` for a
residual table with header fields `mb_w`, `mb_h`, `block_px` and values
`vals` (`count` is their number), in order. -/
def res_size_rects (W H : Int) (mb_w mb_h block_px : Nat) (vals : List Nat) :
    Except DrawFault (List (Int × Int × Int × Int × Nat)) :=
  if (vals.length : Int) ≤ 0 then .ok []
  else
    (int_chk ((mb_w : Int) * (mb_h : Int))).bind fun total =>
      (res_size_vmax vals (List.range total.toNat) 1).bind fun vmax =>
        res_size_rows W H (block_px : Int) vals vmax mb_w (List.range mb_h) 0

/-- The rectangles drawn in order, one call of `draw_solid_rect_Y` each. -/
def draw_rects (pic : picture_t) :
    List (Int × Int × Int × Int × Nat) → Except DrawFault picture_t
  | [] => .ok pic
  | (x, y, w, h, v) :: rest => (draw_solid_rect_Y pic x y w h v).bind fun p => draw_rects p rest

/-- Residual-size heat map on plane 0, `draw_res_size_payload`. -/
def draw_res_size_payload (pic : picture_t) (mb_w mb_h block_px : Nat) (vals : List Nat) :
    Except DrawFault picture_t :=
  (res_size_rects pic.W pic.H mb_w mb_h block_px vals).bind fun calls => draw_rects pic calls

/-- The value a run ends with, when it ends without a fault. -/
def value_of {α : Type} (r : Except DrawFault α) : Option α :=
  match r with
  | .ok a => some a
  | .error _ => none

/-- A 640 x 480 picture on which nothing was drawn. -/
def blank : picture_t :=
  { W := 640, H := 480, Y := [] }

end SideinfoOverlay

namespace SideinfoBus

/-! # Properties

## Arithmetic of ticks -/

theorem int64_eq_self (x : Int) (h1 : -9223372036854775808 ≤ x)
    (h2 : x < 9223372036854775808) : int64 x = x := by
  unfold int64
  omega

theorem int64_of_abs_lt (x : Int) (h : |x| < INT64_MAX) : int64 x = x := by
  unfold INT64_MAX at h
  rcases abs_cases x with ⟨h1, _⟩ | ⟨h1, _⟩ <;> apply int64_eq_self <;> omega

theorem llabs_of_abs_lt (x : Int) (h : |x| < INT64_MAX) : llabs x = |x| := by
  have h0 := h
  unfold INT64_MAX at h
  unfold llabs
  rcases abs_cases x with ⟨h1, h2⟩ | ⟨h1, h2⟩
  · rw [if_neg (by omega), h1]
    exact int64_of_abs_lt x h0
  · rw [if_pos h2, h1]
    apply int64_eq_self <;> omega

/-- C's truncating division by 1000, in terms of floor division. -/
theorem tdiv_thousand (x : Int) :
    Int.tdiv x 1000 = if 0 ≤ x then x / 1000 else -((-x) / 1000) := by
  split
  · next h => exact Int.tdiv_eq_ediv h (by decide)
  · next h =>
    have h1 : Int.tdiv (-x) 1000 = (-x) / 1000 := Int.tdiv_eq_ediv (by omega) (by decide)
    rw [← h1, Int.neg_tdiv, neg_neg]

/-- The tolerance always fits far inside the 64-bit range. -/
theorem tol_bounds (F : Int) :
    -9223372036854775808 < SIDEINFO_PTS_TOL F ∧ SIDEINFO_PTS_TOL F ≤ 9223372036854775 := by
  unfold SIDEINFO_PTS_TOL int64
  rw [tdiv_thousand]
  split <;> constructor <;> omega

/-! ## The scan -/

theorem slot_index_mod (i : Nat) :
    slot_index (Int.toNat ((i % SIDEINFO_BUS_CAP : Nat) : Int)) = slot_index i := by
  apply Fin.ext
  simp only [slot_index, Int.toNat_ofNat, Nat.mod_mod]

/-- One scan step when the distance is in range. -/
theorem pop_scan_step_eq (b : sidebus_t) (pts : Int) (st : pop_best) (i : Nat)
    (h : |slot_diff b pts i| < INT64_MAX) :
    pop_scan_step b.ring pts st i =
      if |slot_diff b pts i| < st.best_absdiff ∨
          (|slot_diff b pts i| = st.best_absdiff ∧ slot_diff b pts i ≤ 0 ∧ st.best_diff > 0)
      then { best_idx := ((i % SIDEINFO_BUS_CAP : Nat) : Int),
             best_absdiff := |slot_diff b pts i|, best_diff := slot_diff b pts i }
      else st := by
  unfold pop_scan_step
  have e1 : int64 ((b.ring (slot_index i)).pts - pts) = slot_diff b pts i :=
    int64_of_abs_lt _ h
  simp only [e1, llabs_of_abs_lt _ h]

theorem scan_inv_step (b : sidebus_t) (pts : Int) (seen : List Nat) (st : pop_best) (i : Nat)
    (h : |slot_diff b pts i| < INT64_MAX) (hinv : scan_inv b pts seen st) :
    scan_inv b pts (seen ++ [i]) (pop_scan_step b.ring pts st i) := by
  rw [pop_scan_step_eq b pts st i h]
  right
  rcases hinv with ⟨hs, hst⟩ | ⟨m, hm, hst, hmin, htie⟩
  · subst hs hst
    refine ⟨i, by simp, ?_, by simp, by simp⟩
    simp [h]
  · subst hst
    by_cases hc : |slot_diff b pts i| < |slot_diff b pts m| ∨
        (|slot_diff b pts i| = |slot_diff b pts m| ∧ slot_diff b pts i ≤ 0 ∧
          slot_diff b pts m > 0)
    · refine ⟨i, by simp, ?_, ?_, ?_⟩
      · simp only [if_pos hc]
      · intro j hj
        rcases List.mem_append.mp hj with hj | hj
        · have := hmin j hj
          rcases hc with hc | hc <;> omega
        · simp at hj
          subst hj
          exact le_refl _
      · intro j hj he hle
        rcases List.mem_append.mp hj with hj | hj
        · have := hmin j hj
          rcases hc with hc | hc <;> omega
        · simp at hj
          subst hj
          exact hle
    · refine ⟨m, by simp [hm], ?_, ?_, ?_⟩
      · simp only [if_neg hc]
      · intro j hj
        rcases List.mem_append.mp hj with hj | hj
        · exact hmin j hj
        · simp at hj
          subst hj
          by_contra hlt
          exact hc (Or.inl (by omega))
      · intro j hj he hle
        rcases List.mem_append.mp hj with hj | hj
        · exact htie j hj he hle
        · simp at hj
          subst hj
          by_contra hpos
          exact hc (Or.inr ⟨he, hle, by omega⟩)

theorem scan_inv_foldl (b : sidebus_t) (pts : Int) (rest : List Nat) :
    ∀ (seen : List Nat) (st : pop_best),
      (∀ i ∈ rest, |slot_diff b pts i| < INT64_MAX) → scan_inv b pts seen st →
      scan_inv b pts (seen ++ rest) (rest.foldl (pop_scan_step b.ring pts) st) := by
  induction rest with
  | nil =>
    intro seen st _ hinv
    simpa using hinv
  | cons i rest ih =>
    intro seen st hr hinv
    have h1 := scan_inv_step b pts seen st i (hr i (by simp)) hinv
    have h2 := ih (seen ++ [i]) _ (fun j hj => hr j (by simp [hj])) h1
    simpa using h2

/-- The scan of the whole window. -/
theorem pop_scan_inv (b : sidebus_t) (pts : Int) (h : ticks_in_range b pts) :
    scan_inv b pts (window b) (pop_scan b pts) := by
  have := scan_inv_foldl b pts (window b) [] _ h (Or.inl ⟨rfl, rfl⟩)
  simpa [pop_scan, window] using this

theorem mem_window (b : sidebus_t) (i : Nat) : i ∈ window b ↔ b.head ≤ i ∧ i < b.tail := by
  unfold window
  rw [List.mem_range'_1]
  omega

theorem window_eq_nil (b : sidebus_t) : window b = [] ↔ b.tail ≤ b.head := by
  unfold window
  simp [List.range'_eq_nil]
  omega

theorem pop_scan_of_empty (b : sidebus_t) (pts : Int) (h : b.tail ≤ b.head) :
    pop_scan b pts = { best_idx := -1, best_absdiff := INT64_MAX, best_diff := 0 } := by
  have hw : List.range' b.head (b.tail - b.head) = [] := by
    have := (window_eq_nil b).mpr h
    simpa [window] using this
  simp [pop_scan, hw]

/-- On a non-empty window the scan ends on a slot of the window that is
nearest to the target, with ties resolved towards `diff ≤ 0`. -/
theorem pop_scan_select (b : sidebus_t) (pts : Int) (h : ticks_in_range b pts)
    (hne : b.head < b.tail) :
    ∃ i ∈ window b,
      pop_scan b pts = { best_idx := ((i % SIDEINFO_BUS_CAP : Nat) : Int),
                         best_absdiff := |slot_diff b pts i|,
                         best_diff := slot_diff b pts i } ∧
      (∀ j ∈ window b, |slot_diff b pts i| ≤ |slot_diff b pts j|) ∧
      (∀ j ∈ window b, |slot_diff b pts j| = |slot_diff b pts i| → slot_diff b pts j ≤ 0 →
        slot_diff b pts i ≤ 0) := by
  rcases pop_scan_inv b pts h with ⟨hw, _⟩ | hsel
  · exact absurd ((window_eq_nil b).mp hw) (by omega)
  · exact hsel

/-! ## Pop, case by case -/

theorem sidebus_pop_of_empty (F : Int) (alloc : Nat → Bool) (b : sidebus_t)
    (o : vlc_side_packet_t) (pts : Int) (h : b.tail ≤ b.head) :
    sidebus_pop F alloc (some b) (some o) pts = .ok (false, some b, some o) := by
  simp [sidebus_pop, pop_scan_of_empty b pts h]

/-- Once the scan has settled on logical index `i`, the result depends on
the tolerance test alone. -/
theorem sidebus_pop_of_scan (F : Int) (alloc : Nat → Bool) (b : sidebus_t)
    (o : vlc_side_packet_t) (pts : Int) (i : Nat) (hr : |slot_diff b pts i| < INT64_MAX)
    (hs : pop_scan b pts = { best_idx := ((i % SIDEINFO_BUS_CAP : Nat) : Int),
                             best_absdiff := |slot_diff b pts i|,
                             best_diff := slot_diff b pts i }) :
    sidebus_pop F alloc (some b) (some o) pts =
      if SIDEINFO_PTS_TOL F < |slot_diff b pts i| then .ok (false, some b, some o)
      else pop_deliver alloc b o (slot_index i) := by
  have h0 : ¬ (((i % SIDEINFO_BUS_CAP : Nat) : Int) < 0) := by omega
  have e1 : int64 ((b.ring (slot_index i)).pts - pts) = slot_diff b pts i :=
    int64_of_abs_lt _ hr
  simp only [sidebus_pop, hs, if_neg h0, slot_index_mod, e1, llabs_of_abs_lt _ hr, gt_iff_lt]

theorem free_chain (es : List vlc_side_entry_t) :
    sidebus_free_entry_list (.chain es) = .ok (if es = [] then .chain [] else .released) := by
  cases es <;> simp [sidebus_free_entry_list]

theorem deep_clone_loop_some (alloc : Nat → Bool) (es : List vlc_side_entry_t) :
    ∀ (k : Nat) (c : List vlc_side_entry_t),
      deep_clone_loop alloc k es = some c → c = es.map clone_entry := by
  induction es with
  | nil =>
    intro k c h
    simp [deep_clone_loop] at h
    simp [h]
  | cons e es ih =>
    intro k c h
    unfold deep_clone_loop at h
    split at h
    · simp at h
    · split at h
      · split at h
        · simp at h
        · rcases Option.map_eq_some'.mp h with ⟨t, ht, rfl⟩
          simp [ih _ _ ht]
      · rcases Option.map_eq_some'.mp h with ⟨t, ht, rfl⟩
        simp [ih _ _ ht]

theorem deep_clone_loop_ok (es : List vlc_side_entry_t) :
    ∀ k : Nat, deep_clone_loop alloc_ok k es = some (es.map clone_entry) := by
  induction es with
  | nil => intro k; simp [deep_clone_loop]
  | cons e es ih =>
    intro k
    unfold deep_clone_loop
    simp [alloc_ok, ih]

theorem clone_entry_wf (e : vlc_side_entry_t) (h : entry_wf e) : clone_entry e = e := by
  cases e with
  | mk t f n d =>
    simp only [entry_wf] at h
    subst h
    cases d <;> simp [clone_entry]

theorem map_clone_entry_wf (es : List vlc_side_entry_t) (h : ∀ e ∈ es, entry_wf e) :
    es.map clone_entry = es := by
  induction es with
  | nil => rfl
  | cons e es ih =>
    simp only [List.map_cons]
    rw [clone_entry_wf e (h e (by simp)), ih (fun x hx => h x (by simp [hx]))]

/-- The clone of a list is NULL or the entry-by-entry copy. -/
theorem deep_clone_chain (alloc : Nat → Bool) (es : List vlc_side_entry_t) :
    ∃ c, deep_clone_entry_list alloc (.chain es) = .ok c ∧ (c = [] ∨ c = es.map clone_entry) := by
  refine ⟨(deep_clone_loop alloc 0 es).getD [], rfl, ?_⟩
  cases h : deep_clone_loop alloc 0 es with
  | none => left; rfl
  | some c => right; simpa using deep_clone_loop_some alloc es 0 c h

theorem deep_clone_chain_ok (es : List vlc_side_entry_t) :
    deep_clone_entry_list alloc_ok (.chain es) = .ok (es.map clone_entry) := by
  simp [deep_clone_entry_list, deep_clone_loop_ok]

/-- Delivery from a slot whose list is live and whose clone is non-NULL. -/
theorem pop_deliver_chain (alloc : Nat → Bool) (b : sidebus_t) (o : vlc_side_packet_t)
    (k : Fin SIDEINFO_BUS_CAP) (es c : List vlc_side_entry_t)
    (hk : (b.ring k).head = .chain es)
    (hc : deep_clone_entry_list alloc (.chain es) = .ok c) (hne : c ≠ []) :
    pop_deliver alloc b o k =
      .ok (true,
        some { b with
          ring := ring_set b.ring k { b.ring k with head := .released, pts := 0 },
          head := b.head + 1 },
        some { pts := (b.ring k).pts, codec_id := (b.ring k).codec_id, head := .chain c }) := by
  have hes : es ≠ [] := by
    rintro rfl
    simp [deep_clone_entry_list, deep_clone_loop] at hc
    exact hne hc
  simp [pop_deliver, hk, hc, hne, free_chain, hes]

/-- Delivery from a slot whose clone is NULL: a hit is reported, nothing is
consumed and only `out->head` is written. -/
theorem pop_deliver_null (alloc : Nat → Bool) (b : sidebus_t) (o : vlc_side_packet_t)
    (k : Fin SIDEINFO_BUS_CAP) (es : List vlc_side_entry_t)
    (hk : (b.ring k).head = .chain es)
    (hc : deep_clone_entry_list alloc (.chain es) = .ok []) :
    pop_deliver alloc b o k = .ok (true, some b, some { o with head := .chain [] }) := by
  simp [pop_deliver, hk, hc]

/-! ## Push, case by case -/

theorem ring_set_same (ring : Fin SIDEINFO_BUS_CAP → vlc_side_packet_t)
    (k : Fin SIDEINFO_BUS_CAP) (s : vlc_side_packet_t) : ring_set ring k s k = s := by
  simp [ring_set]

theorem ring_set_other (ring : Fin SIDEINFO_BUS_CAP → vlc_side_packet_t)
    (k j : Fin SIDEINFO_BUS_CAP) (s : vlc_side_packet_t) (h : j ≠ k) :
    ring_set ring k s j = ring j := by
  simp [ring_set, h]

/-- The `free` on the failure path of the clone in `sidebus_push` always sees
NULL and changes nothing. -/
theorem push_stored_eq (c : List vlc_side_entry_t) :
    (if c = [] then sidebus_free_entry_list (.chain c) else .ok (.chain c)) =
      (.ok (.chain c) : Except Fault entry_list) := by
  by_cases h : c = []
  · subst h
    simp [sidebus_free_entry_list]
  · simp [h]

theorem size_diff_of_le (tail head : Nat) (h : head ≤ tail) :
    size_diff tail head = tail - head := by
  simp [size_diff, h]

/-- Push below capacity: the slot at `tail % CAP` is overwritten. -/
theorem sidebus_push_not_full (alloc : Nat → Bool) (b : sidebus_t) (p : vlc_side_packet_t)
    (E : List vlc_side_entry_t) (hp : p.head = .chain E)
    (hnf : ¬ b.size ≤ size_diff b.tail b.head) :
    sidebus_push alloc (some b) (some p) =
      .ok (0, some { b with
        ring := ring_set b.ring (slot_index b.tail)
          { pts := p.pts, codec_id := p.codec_id,
            head := .chain ((deep_clone_loop alloc 0 E).getD []) },
        tail := b.tail + 1 }) := by
  simp only [sidebus_push, if_neg hnf, hp, deep_clone_entry_list, push_stored_eq]

/-- Push at capacity with a live (or NULL) list in the slot at `head % CAP`:
that list is freed, then the slot at `tail % CAP` is overwritten. -/
theorem sidebus_push_full (alloc : Nat → Bool) (b : sidebus_t) (p : vlc_side_packet_t)
    (E es : List vlc_side_entry_t) (hp : p.head = .chain E)
    (hf : b.size ≤ size_diff b.tail b.head)
    (hes : (b.ring (slot_index b.head)).head = .chain es) :
    sidebus_push alloc (some b) (some p) =
      .ok (0, some { b with
        ring := ring_set
          (ring_set b.ring (slot_index b.head)
            { b.ring (slot_index b.head) with
              head := if es = [] then .chain [] else .released })
          (slot_index b.tail)
          { pts := p.pts, codec_id := p.codec_id,
            head := .chain ((deep_clone_loop alloc 0 E).getD []) },
        tail := b.tail + 1 }) := by
  simp only [sidebus_push, if_pos hf, hp, hes, deep_clone_entry_list, push_stored_eq]
  simp only [free_chain]

/-- Push at capacity when the slot at `head % CAP` holds a stale pointer. -/
theorem sidebus_push_stale (alloc : Nat → Bool) (b : sidebus_t) (p : vlc_side_packet_t)
    (hf : b.size ≤ size_diff b.tail b.head)
    (hes : (b.ring (slot_index b.head)).head = .released) :
    sidebus_push alloc (some b) (some p) = .error .double_free := by
  simp [sidebus_push, if_pos hf, hes, sidebus_free_entry_list]

theorem entry_list_live (l : entry_list) (h : l ≠ .released) : ∃ es, l = .chain es := by
  cases l with
  | chain es => exact ⟨es, rfl⟩
  | released => exact absurd rfl h

/-- Effect of a push that meets no stale pointer, on a bus with
`head ≤ tail`. -/
theorem sidebus_push_spec (alloc : Nat → Bool) (b : sidebus_t) (p : vlc_side_packet_t)
    (E : List vlc_side_entry_t) (hp : p.head = .chain E) (hle : b.head ≤ b.tail)
    (hev : evictee_live b) :
    ∃ b1, sidebus_push alloc (some b) (some p) = .ok (0, some b1) ∧
      b1.head = b.head ∧ b1.tail = b.tail + 1 ∧ b1.size = b.size ∧
      b1.ring (slot_index b.tail) =
        { pts := p.pts, codec_id := p.codec_id,
          head := .chain ((deep_clone_loop alloc 0 E).getD []) } ∧
      (∀ k, k ≠ slot_index b.tail →
        (b1.ring k).pts = (b.ring k).pts ∧ (b1.ring k).codec_id = (b.ring k).codec_id ∧
        ((¬ b.size ≤ b.tail - b.head ∨ k ≠ slot_index b.head) → b1.ring k = b.ring k)) := by
  have hd := size_diff_of_le b.tail b.head hle
  by_cases hf : b.size ≤ b.tail - b.head
  · obtain ⟨es, hes⟩ := entry_list_live _ (hev hf)
    refine ⟨_, sidebus_push_full alloc b p E es hp (by rw [hd]; exact hf) hes,
      rfl, rfl, rfl, ?_, ?_⟩
    · simp [ring_set_same]
    · intro k hk
      simp only [ring_set_other _ _ _ _ hk]
      by_cases hkh : k = slot_index b.head
      · subst hkh
        simp [ring_set_same, hf]
      · simp [ring_set_other _ _ _ _ hkh]
  · refine ⟨_, sidebus_push_not_full alloc b p E hp (by rw [hd]; exact hf),
      rfl, rfl, rfl, ?_, ?_⟩
    · simp [ring_set_same]
    · intro k hk
      simp [ring_set_other _ _ _ _ hk]

/-! ## C1: round trip -/

/-- C1, as stated, fails: (a) on a bus that already holds a record at
timestamp 5, pushing `(5, [entry_b])` and popping 5 returns the older record
`(5, [entry_a])`; (b) pushing a record with an empty entry list at 5 and
popping 5 reports a hit but leaves the caller's timestamp (77) untouched. -/
theorem round_trip_counterexample :
    pop_hit (push_pop 1000 alloc_ok bus_one ⟨5, .chain [entry_b], 2⟩ zero_slot 5) = some true ∧
    pop_out (push_pop 1000 alloc_ok bus_one ⟨5, .chain [entry_b], 2⟩ zero_slot 5) =
      some ⟨5, .chain [entry_a], 1⟩ ∧
    pop_hit (push_pop 1000 alloc_ok sidebus_new ⟨5, .chain [], 2⟩ ⟨77, .chain [], 9⟩ 5) =
      some true ∧
    pop_out (push_pop 1000 alloc_ok sidebus_new ⟨5, .chain [], 2⟩ ⟨77, .chain [], 9⟩ 5) =
      some ⟨77, .chain [], 9⟩ := by
  decide

/-- C1 (amended): on a bus with `head ≤ tail` in which no slot of the window
other than the one being written holds timestamp `T`, pushing a record
`(T, codec, E)` with a non-empty list of well-formed entries and popping at
`T` straight away reports a hit and yields the record `(T, codec, E)`,
entry for entry; allocation succeeds, the tolerance is non-negative, the
tick differences are in 64-bit range and an eviction meets no stale
pointer. -/
theorem round_trip (F : Int) (b : sidebus_t) (o : vlc_side_packet_t) (T c : Int)
    (E : List vlc_side_entry_t) (hE : E ≠ []) (hwf : ∀ e ∈ E, entry_wf e)
    (htol : 0 ≤ SIDEINFO_PTS_TOL F) (hle : b.head ≤ b.tail) (hev : evictee_live b)
    (hT : ∀ i ∈ window b, slot_index i ≠ slot_index b.tail →
      (b.ring (slot_index i)).pts ≠ T ∧ |(b.ring (slot_index i)).pts - T| < INT64_MAX) :
    pop_hit (push_pop F alloc_ok b ⟨T, .chain E, c⟩ o T) = some true ∧
    pop_out (push_pop F alloc_ok b ⟨T, .chain E, c⟩ o T) = some ⟨T, .chain E, c⟩ := by
  obtain ⟨b1, hpush, hh, ht, _, hslot, hoth⟩ :=
    sidebus_push_spec alloc_ok b ⟨T, .chain E, c⟩ E rfl hle hev
  have hclone : (deep_clone_loop alloc_ok 0 E).getD [] = E := by
    simp [deep_clone_loop_ok, map_clone_entry_wf E hwf]
  rw [hclone] at hslot
  simp only at hslot
  have hwin : ∀ i ∈ window b1, slot_index i ≠ slot_index b.tail → i ∈ window b := by
    intro i hi hne
    rw [mem_window] at hi ⊢
    have : i ≠ b.tail := fun h => hne (by rw [h])
    omega
  have hd0 : ∀ i, slot_index i = slot_index b.tail → slot_diff b1 T i = 0 := by
    intro i hi
    simp [slot_diff, hi, hslot]
  have hrange : ticks_in_range b1 T := by
    intro i hi
    by_cases hs : slot_index i = slot_index b.tail
    · rw [hd0 i hs]
      decide
    · have := (hT i (hwin i hi hs) hs).2
      simpa [slot_diff, (hoth _ hs).1] using this
  have htail : b.tail ∈ window b1 := by
    rw [mem_window]
    omega
  obtain ⟨i, hi, hs, hmin, _⟩ := pop_scan_select b1 T hrange (by omega)
  have hdi : slot_diff b1 T i = 0 := by
    have := hmin b.tail htail
    rw [hd0 b.tail rfl] at this
    simpa using this
  have hsi : slot_index i = slot_index b.tail := by
    by_contra hne
    have h1 := (hT i (hwin i hi hne) hne).1
    have h2 : (b1.ring (slot_index i)).pts - T = 0 := hdi
    rw [(hoth _ hne).1] at h2
    exact h1 (by omega)
  have hpop := sidebus_pop_of_scan F alloc_ok b1 o T i (hrange i hi) hs
  have hnot : ¬ SIDEINFO_PTS_TOL F < |slot_diff b1 T i| := by
    rw [hdi]
    simpa using htol
  rw [if_neg hnot, hsi] at hpop
  have hdel := pop_deliver_chain alloc_ok b1 o (slot_index b.tail) E E (by rw [hslot])
    (by rw [deep_clone_chain_ok, map_clone_entry_wf E hwf]) hE
  rw [hdel] at hpop
  simp [push_pop, hpush, hpop, pop_hit, pop_out, hslot]

/-- C1 witness: a new bus, the record `(5, codec 2, [entry_a, entry_b])`. -/
theorem round_trip_witness :
    pop_hit (push_pop 1000 alloc_ok sidebus_new ⟨5, .chain [entry_a, entry_b], 2⟩ zero_slot 5) =
      some true ∧
    pop_out (push_pop 1000 alloc_ok sidebus_new ⟨5, .chain [entry_a, entry_b], 2⟩ zero_slot 5) =
      some ⟨5, .chain [entry_a, entry_b], 2⟩ :=
  round_trip 1000 sidebus_new zero_slot 5 2 [entry_a, entry_b] (by decide) (by decide)
    (by decide) (by decide) (by decide) (by decide)

/-! ## C2: nearest match -/

theorem pop_deliver_hit (alloc : Nat → Bool) (b : sidebus_t) (o : vlc_side_packet_t)
    (k : Fin SIDEINFO_BUS_CAP) : pop_hit (pop_deliver alloc b o k) ≠ some false := by
  unfold pop_deliver
  cases h1 : deep_clone_entry_list alloc (b.ring k).head with
  | error f => simp [pop_hit]
  | ok c =>
    by_cases hc : c = []
    · simp [hc, pop_hit]
    · cases h2 : sidebus_free_entry_list (b.ring k).head with
      | error f => simp [hc, pop_hit]
      | ok h => simp [hc, pop_hit]

theorem pop_deliver_live_hit (alloc : Nat → Bool) (b : sidebus_t) (o : vlc_side_packet_t)
    (k : Fin SIDEINFO_BUS_CAP) (h : (b.ring k).head ≠ .released) :
    pop_hit (pop_deliver alloc b o k) = some true := by
  obtain ⟨es, hes⟩ := entry_list_live _ h
  obtain ⟨c, hc, _⟩ := deep_clone_chain alloc es
  by_cases hn : c = []
  · subst hn
    rw [pop_deliver_null alloc b o k es hes hc]
    rfl
  · rw [pop_deliver_chain alloc b o k es c hes hc hn]
    rfl

/-- C2: when `sidebus_pop` reports a hit (tick differences in 64-bit range),
the physical slot it settled on belongs to a logical index of `[head, tail)`
and no slot of that window is strictly closer to `pts`; the hit is the
delivery from that slot. -/
theorem pop_hit_nearest (F : Int) (alloc : Nat → Bool) (b : sidebus_t)
    (o : vlc_side_packet_t) (pts : Int) (hr : ticks_in_range b pts)
    (hhit : pop_hit (sidebus_pop F alloc (some b) (some o) pts) = some true) :
    (∃ i ∈ window b, slot_index i = slot_index (pop_scan b pts).best_idx.toNat) ∧
    (∀ j ∈ window b,
      |(b.ring (slot_index (pop_scan b pts).best_idx.toNat)).pts - pts| ≤
        |(b.ring (slot_index j)).pts - pts|) ∧
    sidebus_pop F alloc (some b) (some o) pts =
      pop_deliver alloc b o (slot_index (pop_scan b pts).best_idx.toNat) := by
  have hne : b.head < b.tail := by
    by_contra hle
    rw [sidebus_pop_of_empty F alloc b o pts (by omega)] at hhit
    simp [pop_hit] at hhit
  obtain ⟨i, hi, hs, hmin, _⟩ := pop_scan_select b pts hr hne
  have hpop := sidebus_pop_of_scan F alloc b o pts i (hr i hi) hs
  have hk : slot_index (pop_scan b pts).best_idx.toNat = slot_index i := by
    rw [hs]
    exact slot_index_mod i
  rw [hk]
  refine ⟨⟨i, hi, rfl⟩, fun j hj => hmin j hj, ?_⟩
  by_cases ht : SIDEINFO_PTS_TOL F < |slot_diff b pts i|
  · rw [hpop, if_pos ht] at hhit
    simp [pop_hit] at hhit
  · rw [hpop, if_neg ht]

/-- C2 witness: `bus_two` (timestamps 91 and 109), target 95. -/
theorem pop_hit_nearest_witness :
    (∃ i ∈ window bus_two, slot_index i = slot_index (pop_scan bus_two 95).best_idx.toNat) ∧
    (∀ j ∈ window bus_two,
      |(bus_two.ring (slot_index (pop_scan bus_two 95).best_idx.toNat)).pts - 95| ≤
        |(bus_two.ring (slot_index j)).pts - 95|) ∧
    sidebus_pop 1000 alloc_ok (some bus_two) (some zero_slot) 95 =
      pop_deliver alloc_ok bus_two zero_slot (slot_index (pop_scan bus_two 95).best_idx.toNat) :=
  pop_hit_nearest 1000 alloc_ok bus_two zero_slot 95 (by decide) (by decide)

/-! ## C3: tie-break -/

/-- C3, as stated, fails: (a) when `d` exceeds the tolerance: with a
tolerance of 8 ticks and slots at 91 = 100 - 9 and 109 = 100 + 9, the pop at
100 is a miss and returns no slot; (b) when the slot at `T - d` holds a NULL
list: with a tolerance of 100 ticks the pop at 100 reports a hit but the
caller's record keeps its own timestamp (77), not 91. -/
theorem tie_break_counterexample :
    pop_hit (sidebus_pop 1000 alloc_ok (some bus_two) (some zero_slot) 100) = some false ∧
    pop_out (sidebus_pop 1000 alloc_ok (some bus_two) (some zero_slot) 100) = some zero_slot ∧
    SIDEINFO_PTS_TOL 1000 = 8 ∧
    pop_hit (sidebus_pop 12500 alloc_ok (some bus_two_null) (some ⟨77, .chain [], 9⟩) 100) =
      some true ∧
    pop_out (sidebus_pop 12500 alloc_ok (some bus_two_null) (some ⟨77, .chain [], 9⟩) 100) =
      some ⟨77, .chain [], 9⟩ := by
  decide

/-- The scan over a window of exactly two slots, at `T - d` and `T + d` with
`0 < d` (in either order): it settles on the slot at `T - d`, and the pop
then depends on the tolerance test alone. -/
theorem tie_break_scan (F : Int) (alloc : Nat → Bool) (b : sidebus_t)
    (o : vlc_side_packet_t) (T d : Int) (i j : Nat) (hd : 0 < d) (hdr : d < INT64_MAX)
    (ht : b.tail = b.head + 2)
    (hij : (i = b.head ∧ j = b.head + 1) ∨ (i = b.head + 1 ∧ j = b.head))
    (hi : (b.ring (slot_index i)).pts = T - d) (hj : (b.ring (slot_index j)).pts = T + d) :
    pop_scan b T = { best_idx := ((i % SIDEINFO_BUS_CAP : Nat) : Int), best_absdiff := d,
                     best_diff := -d } ∧
    sidebus_pop F alloc (some b) (some o) T =
      if SIDEINFO_PTS_TOL F < d then .ok (false, some b, some o)
      else pop_deliver alloc b o (slot_index i) := by
  have hdi : slot_diff b T i = -d := by
    simp only [slot_diff, hi]
    omega
  have hdj : slot_diff b T j = d := by
    simp only [slot_diff, hj]
    omega
  have habs : |(-d : Int)| = d := by
    rw [abs_neg, abs_of_pos hd]
  have hmem : ∀ m ∈ window b, m = i ∨ m = j := by
    intro m hm
    rw [mem_window] at hm
    omega
  have hiw : i ∈ window b := by
    rw [mem_window]
    omega
  have hr : ticks_in_range b T := by
    intro m hm
    rcases hmem m hm with rfl | rfl
    · rw [hdi, habs]
      exact hdr
    · rw [hdj, abs_of_pos hd]
      exact hdr
  obtain ⟨m, hm, hs, hmin, htie⟩ := pop_scan_select b T hr (by omega)
  have hmi : m = i := by
    rcases hmem m hm with h | h
    · exact h
    · subst h
      have := htie i hiw (by rw [hdi, hdj, habs, abs_of_pos hd]) (by rw [hdi]; omega)
      rw [hdj] at this
      omega
  subst hmi
  have hpop := sidebus_pop_of_scan F alloc b o T m (hr m hm) hs
  rw [hdi, habs] at hpop hs
  exact ⟨hs, hpop⟩

/-- C3 (amended): in a bus whose window holds exactly two slots, at `T - d`
and `T + d` with `0 < d` (in either order), the scan for target `T` settles
on the slot at `T - d`, for every such `d`; when moreover `d` is within the
tolerance and that slot holds a non-empty list, the pop (allocation
succeeding) is a hit that returns timestamp `T - d`, the slot's codec and a
copy of its list. -/
theorem tie_break (F : Int) (b : sidebus_t) (o : vlc_side_packet_t) (T d : Int) (i j : Nat)
    (hd : 0 < d) (hdr : d < INT64_MAX) (ht : b.tail = b.head + 2)
    (hij : (i = b.head ∧ j = b.head + 1) ∨ (i = b.head + 1 ∧ j = b.head))
    (hi : (b.ring (slot_index i)).pts = T - d) (hj : (b.ring (slot_index j)).pts = T + d) :
    (pop_scan b T).best_idx = ((i % SIDEINFO_BUS_CAP : Nat) : Int) ∧
    (d ≤ SIDEINFO_PTS_TOL F →
      ∀ es : List vlc_side_entry_t, (b.ring (slot_index i)).head = .chain es → es ≠ [] →
        pop_hit (sidebus_pop F alloc_ok (some b) (some o) T) = some true ∧
        pop_out (sidebus_pop F alloc_ok (some b) (some o) T) =
          some ⟨T - d, .chain (es.map clone_entry), (b.ring (slot_index i)).codec_id⟩) := by
  obtain ⟨hs, hpop⟩ := tie_break_scan F alloc_ok b o T d i j hd hdr ht hij hi hj
  refine ⟨by rw [hs], ?_⟩
  intro hdt es hes hne
  rw [if_neg (by omega)] at hpop
  have hc : es.map clone_entry ≠ [] := by
    simpa using hne
  rw [pop_deliver_chain alloc_ok b o (slot_index i) es _ hes (deep_clone_chain_ok es) hc] at hpop
  constructor
  · rw [hpop]
    rfl
  · rw [hpop]
    simp [pop_out, hi]

/-- C3 witness: slots at 91 and 109 pushed in the other order, target 100
(`d = 9`); the selection holds whatever the tolerance, and with a tolerance
of 100 ticks the pop returns the record at 91. -/
theorem tie_break_witness :
    (pop_scan bus_two_swapped 100).best_idx = ((1 % SIDEINFO_BUS_CAP : Nat) : Int) ∧
    pop_hit (sidebus_pop 12500 alloc_ok (some bus_two_swapped) (some zero_slot) 100) =
      some true ∧
    pop_out (sidebus_pop 12500 alloc_ok (some bus_two_swapped) (some zero_slot) 100) =
      some ⟨100 - 9, .chain ([entry_a].map clone_entry),
        (bus_two_swapped.ring (slot_index 1)).codec_id⟩ :=
  have h := tie_break 12500 bus_two_swapped zero_slot 100 9 1 0 (by decide) (by decide)
    (by decide) (by decide) (by decide) (by decide)
  ⟨h.1, h.2 (by decide) [entry_a] (by decide) (by decide)⟩

/-! ## C4: tolerance boundary -/

/-- C4: with a single stored slot at `T` (its list not stale) and a
non-negative tolerance `tol = SIDEINFO_PTS_TOL CLOCK_FREQ`, the pop at
`T + tol` is a hit and the pop at `T + tol + 1` is a miss. -/
theorem tolerance_boundary (F : Int) (alloc : Nat → Bool) (b : sidebus_t)
    (o : vlc_side_packet_t) (T : Int) (htol : 0 ≤ SIDEINFO_PTS_TOL F)
    (ht : b.tail = b.head + 1) (hT : (b.ring (slot_index b.head)).pts = T)
    (hlive : (b.ring (slot_index b.head)).head ≠ .released) :
    pop_hit (sidebus_pop F alloc (some b) (some o) (T + SIDEINFO_PTS_TOL F)) = some true ∧
    pop_hit (sidebus_pop F alloc (some b) (some o) (T + SIDEINFO_PTS_TOL F + 1)) =
      some false := by
  have hub := (tol_bounds F).2
  have hmem : ∀ m ∈ window b, m = b.head := by
    intro m hm
    rw [mem_window] at hm
    omega
  have hd1 : |slot_diff b (T + SIDEINFO_PTS_TOL F) b.head| = SIDEINFO_PTS_TOL F := by
    have : slot_diff b (T + SIDEINFO_PTS_TOL F) b.head = -SIDEINFO_PTS_TOL F := by
      simp only [slot_diff, hT]
      omega
    rw [this, abs_neg, abs_of_nonneg htol]
  have hd2 : |slot_diff b (T + SIDEINFO_PTS_TOL F + 1) b.head| = SIDEINFO_PTS_TOL F + 1 := by
    have : slot_diff b (T + SIDEINFO_PTS_TOL F + 1) b.head = -(SIDEINFO_PTS_TOL F + 1) := by
      simp only [slot_diff, hT]
      omega
    rw [this, abs_neg, abs_of_nonneg (by omega)]
  have hr1 : ticks_in_range b (T + SIDEINFO_PTS_TOL F) := by
    intro m hm
    rw [hmem m hm, hd1]
    unfold INT64_MAX
    omega
  have hr2 : ticks_in_range b (T + SIDEINFO_PTS_TOL F + 1) := by
    intro m hm
    rw [hmem m hm, hd2]
    unfold INT64_MAX
    omega
  constructor
  · obtain ⟨m, hm, hs, _, _⟩ := pop_scan_select b _ hr1 (by omega)
    have hmh := hmem m hm
    subst hmh
    rw [sidebus_pop_of_scan F alloc b o _ _ (hr1 _ hm) hs, hd1, if_neg (by omega)]
    exact pop_deliver_live_hit alloc b o _ hlive
  · obtain ⟨m, hm, hs, _, _⟩ := pop_scan_select b _ hr2 (by omega)
    have hmh := hmem m hm
    subst hmh
    rw [sidebus_pop_of_scan F alloc b o _ _ (hr2 _ hm) hs, hd2, if_pos (by omega)]
    rfl

/-- C4 witness: `bus_one` (one slot at 5), `CLOCK_FREQ = 1000000`. -/
theorem tolerance_boundary_witness :
    pop_hit (sidebus_pop 1000000 alloc_ok (some bus_one) (some zero_slot)
      (5 + SIDEINFO_PTS_TOL 1000000)) = some true ∧
    pop_hit (sidebus_pop 1000000 alloc_ok (some bus_one) (some zero_slot)
      (5 + SIDEINFO_PTS_TOL 1000000 + 1)) = some false :=
  tolerance_boundary 1000000 alloc_ok bus_one zero_slot 5 (by decide) (by decide) (by decide)
    (by decide)

/-! ## C5: what a successful pop leaves behind -/

/-- A pop with non-null arguments either misses, returning its arguments
untouched, or delivers from the slot the scan settled on. -/
theorem sidebus_pop_cases (F : Int) (alloc : Nat → Bool) (b : sidebus_t)
    (o : vlc_side_packet_t) (pts : Int) :
    sidebus_pop F alloc (some b) (some o) pts = .ok (false, some b, some o) ∨
    sidebus_pop F alloc (some b) (some o) pts =
      pop_deliver alloc b o (slot_index (pop_scan b pts).best_idx.toNat) := by
  simp only [sidebus_pop]
  split
  · left; rfl
  · split
    · left; rfl
    · right; rfl

/-- C5, as stated, fails: on a bus whose only slot (timestamp 5) holds a
NULL list, the pop at 5 returns true, yet `head` stays 0, the slot keeps its
timestamp 5 and the caller's record keeps its timestamp 77 and codec 9. -/
theorem pop_success_counterexample :
    pop_hit (sidebus_pop 1000 alloc_ok (some bus_empty_payload) (some ⟨77, .chain [], 9⟩) 5) =
      some true ∧
    (pop_bus (sidebus_pop 1000 alloc_ok (some bus_empty_payload)
      (some ⟨77, .chain [], 9⟩) 5)).map
        (fun b => (b.head, b.tail, (b.ring (slot_index 0)).pts)) = some (0, 1, 5) ∧
    pop_out (sidebus_pop 1000 alloc_ok (some bus_empty_payload) (some ⟨77, .chain [], 9⟩) 5) =
      some ⟨77, .chain [], 9⟩ := by
  decide

/-- C5 (amended): whenever `sidebus_pop` returns true, the matched slot `k`
holds a live list `es` with clone `c`.  If `c` is non-NULL (the list is
non-empty and its allocation succeeded), the output record carries the slot's
timestamp and codec and the entry-by-entry copy of `es`, the slot's list has
been freed (the slot keeps the stale pointer), its timestamp is 0, every
other slot is untouched, `head` has advanced by one and `tail` is unchanged.
If `c` is NULL, the bus is unchanged and only the output's list head is
written. -/
theorem pop_success (F : Int) (alloc : Nat → Bool) (b : sidebus_t) (o : vlc_side_packet_t)
    (pts : Int) (hhit : pop_hit (sidebus_pop F alloc (some b) (some o) pts) = some true) :
    ∃ es c b1 o1,
      (b.ring (slot_index (pop_scan b pts).best_idx.toNat)).head = .chain es ∧
      deep_clone_entry_list alloc (.chain es) = .ok c ∧
      sidebus_pop F alloc (some b) (some o) pts = .ok (true, some b1, some o1) ∧
      (c ≠ [] →
        c = es.map clone_entry ∧
        o1 = ⟨(b.ring (slot_index (pop_scan b pts).best_idx.toNat)).pts, .chain c,
              (b.ring (slot_index (pop_scan b pts).best_idx.toNat)).codec_id⟩ ∧
        (b1.ring (slot_index (pop_scan b pts).best_idx.toNat)).head = .released ∧
        (b1.ring (slot_index (pop_scan b pts).best_idx.toNat)).pts = 0 ∧
        (∀ j, j ≠ slot_index (pop_scan b pts).best_idx.toNat → b1.ring j = b.ring j) ∧
        b1.head = b.head + 1 ∧ b1.tail = b.tail ∧ b1.size = b.size) ∧
      (c = [] → b1 = b ∧ o1 = { o with head := .chain [] }) := by
  rcases sidebus_pop_cases F alloc b o pts with hm | hdel
  · rw [hm] at hhit
    simp [pop_hit] at hhit
  · generalize slot_index (pop_scan b pts).best_idx.toNat = k at hdel ⊢
    cases hk : (b.ring k).head with
    | released =>
      rw [hdel] at hhit
      simp [pop_deliver, hk, deep_clone_entry_list, pop_hit] at hhit
    | chain es =>
      obtain ⟨c, hc, hcc⟩ := deep_clone_chain alloc es
      by_cases hn : c = []
      · subst hn
        refine ⟨es, [], b, { o with head := .chain [] }, rfl, hc, ?_, ?_, ?_⟩
        · rw [hdel, pop_deliver_null alloc b o k es hk hc]
        · intro h
          exact absurd rfl h
        · intro _
          exact ⟨rfl, rfl⟩
      · refine ⟨es, c,
          { b with
            ring := ring_set b.ring k { b.ring k with head := .released, pts := 0 },
            head := b.head + 1 },
          { pts := (b.ring k).pts, codec_id := (b.ring k).codec_id, head := .chain c },
          rfl, hc, ?_, ?_, ?_⟩
        · rw [hdel, pop_deliver_chain alloc b o k es c hk hc hn]
        · intro _
          refine ⟨hcc.resolve_left hn, rfl, ?_, ?_, ?_, rfl, rfl, rfl⟩
          · simp [ring_set_same]
          · simp [ring_set_same]
          · intro j hj
            simp [ring_set_other _ _ _ _ hj]
        · intro h
          exact absurd h hn

/-- C5 witness: `bus_one`, popped at its timestamp 5. -/
theorem pop_success_witness :
    ∃ es c b1 o1,
      (bus_one.ring (slot_index (pop_scan bus_one 5).best_idx.toNat)).head = .chain es ∧
      deep_clone_entry_list alloc_ok (.chain es) = .ok c ∧
      sidebus_pop 1000 alloc_ok (some bus_one) (some zero_slot) 5 =
        .ok (true, some b1, some o1) ∧
      (c ≠ [] →
        c = es.map clone_entry ∧
        o1 = ⟨(bus_one.ring (slot_index (pop_scan bus_one 5).best_idx.toNat)).pts, .chain c,
              (bus_one.ring (slot_index (pop_scan bus_one 5).best_idx.toNat)).codec_id⟩ ∧
        (b1.ring (slot_index (pop_scan bus_one 5).best_idx.toNat)).head = .released ∧
        (b1.ring (slot_index (pop_scan bus_one 5).best_idx.toNat)).pts = 0 ∧
        (∀ j, j ≠ slot_index (pop_scan bus_one 5).best_idx.toNat →
          b1.ring j = bus_one.ring j) ∧
        b1.head = bus_one.head + 1 ∧ b1.tail = bus_one.tail ∧ b1.size = bus_one.size) ∧
      (c = [] → b1 = bus_one ∧ o1 = { zero_slot with head := .chain [] }) :=
  pop_success 1000 alloc_ok bus_one zero_slot 5 (by decide)

/-! ## C6: a miss consumes nothing -/

/-- C6: with non-null arguments (tick differences in 64-bit range),
`sidebus_pop` returns a miss exactly when the window is empty or a nearest
slot of the window lies further than the tolerance from `pts`; and every
miss returns the bus and the output record exactly as they were passed. -/
theorem pop_miss (F : Int) (alloc : Nat → Bool) (b : sidebus_t) (o : vlc_side_packet_t)
    (pts : Int) (hr : ticks_in_range b pts) :
    (pop_hit (sidebus_pop F alloc (some b) (some o) pts) = some false ↔
      (window b = [] ∨
        ∃ i ∈ window b, (∀ j ∈ window b, |slot_diff b pts i| ≤ |slot_diff b pts j|) ∧
          SIDEINFO_PTS_TOL F < |slot_diff b pts i|)) ∧
    (pop_hit (sidebus_pop F alloc (some b) (some o) pts) = some false →
      sidebus_pop F alloc (some b) (some o) pts = .ok (false, some b, some o)) := by
  have hunch : pop_hit (sidebus_pop F alloc (some b) (some o) pts) = some false →
      sidebus_pop F alloc (some b) (some o) pts = .ok (false, some b, some o) := by
    intro h
    rcases sidebus_pop_cases F alloc b o pts with hm | hdel
    · exact hm
    · rw [hdel] at h
      exact absurd h (pop_deliver_hit alloc b o _)
  refine ⟨⟨?_, ?_⟩, hunch⟩
  · intro h
    by_cases hw : window b = []
    · left; exact hw
    · right
      have hne : b.head < b.tail := by
        by_contra hle
        exact hw ((window_eq_nil b).mpr (by omega))
      obtain ⟨i, hi, hs, hmin, _⟩ := pop_scan_select b pts hr hne
      refine ⟨i, hi, hmin, ?_⟩
      by_contra hnt
      rw [sidebus_pop_of_scan F alloc b o pts i (hr i hi) hs, if_neg hnt] at h
      exact pop_deliver_hit alloc b o _ h
  · rintro (hw | ⟨i, hi, hmin, hfar⟩)
    · rw [sidebus_pop_of_empty F alloc b o pts ((window_eq_nil b).mp hw)]
      rfl
    · have hne : b.head < b.tail := by
        rw [mem_window] at hi
        omega
      obtain ⟨m, hm, hs, hmin2, _⟩ := pop_scan_select b pts hr hne
      have h1 := hmin m hm
      rw [sidebus_pop_of_scan F alloc b o pts m (hr m hm) hs, if_pos (by omega)]
      rfl

/-- C6 witness: `bus_two` (timestamps 91 and 109), tolerance 8, target 100. -/
theorem pop_miss_witness :
    (pop_hit (sidebus_pop 1000 alloc_ok (some bus_two) (some zero_slot) 100) = some false ↔
      (window bus_two = [] ∨
        ∃ i ∈ window bus_two,
          (∀ j ∈ window bus_two, |slot_diff bus_two 100 i| ≤ |slot_diff bus_two 100 j|) ∧
          SIDEINFO_PTS_TOL 1000 < |slot_diff bus_two 100 i|)) ∧
    (pop_hit (sidebus_pop 1000 alloc_ok (some bus_two) (some zero_slot) 100) = some false →
      sidebus_pop 1000 alloc_ok (some bus_two) (some zero_slot) 100 =
        .ok (false, some bus_two, some zero_slot)) :=
  pop_miss 1000 alloc_ok bus_two zero_slot 100 (by decide)

/-! ## C7, C8: capacity and eviction -/

set_option maxRecDepth 200000 in
/-- C7 (code defect): 257 pushes on a new bus, with no pop, all succeed and
leave `head = 0`, `tail = 257`: the window `tail - head` is 257, one more
than the capacity 256.  The eviction branch frees a list but never advances
`head`. -/
theorem capacity_exceeded :
    observe (push_all alloc_ok sidebus_new (records 257))
      (fun b => (b.head, b.tail, b.size, b.tail - b.head)) = some (0, 257, 256, 257) ∧
    SIDEINFO_BUS_CAP < 257 := by
  decide

set_option maxRecDepth 200000 in
/-- C8 (code defect): after 257 pushes on a new bus the bus is full
(`tail - head = 257 ≥ size`) with `head % 256 = 0` and `tail % 256 = 1`.
The 258th push frees the list of slot 0 (leaving a stale pointer there, with
the timestamp 2304 of the 257th record) and overwrites slot 1, whose list
(record 1, timestamp 9) was live and is not freed.  The 259th push frees
slot 0 again: a double free. -/
theorem eviction_misses_written_slot :
    observe (push_all alloc_ok sidebus_new (records 257))
      (fun b => (decide (b.size ≤ b.tail - b.head), slot_index b.head, slot_index b.tail,
        b.ring (slot_index 0), b.ring (slot_index 1))) =
      some (true, 0, 1, ⟨2304, .chain [entry_a], 3⟩, ⟨9, .chain [entry_a], 3⟩) ∧
    observe (push_all alloc_ok sidebus_new (records 258))
      (fun b => (b.ring (slot_index 0), b.ring (slot_index 1))) =
      some (⟨2304, .released, 3⟩, ⟨2313, .chain [entry_a], 3⟩) ∧
    fault_of (push_all alloc_ok sidebus_new (records 259)) = some .double_free := by
  decide

/-! ## C9: result code and cursors of a push -/

theorem sidebus_push_null (alloc : Nat → Bool) (bus : Option sidebus_t)
    (inp : Option vlc_side_packet_t) (h : bus = none ∨ inp = none) :
    sidebus_push alloc bus inp = .ok (-1, bus) := by
  rcases h with h | h
  · subst h
    simp [sidebus_push]
  · subst h
    cases bus <;> simp [sidebus_push]

/-- A push with non-null arguments that runs to completion returns 0, keeps
`head` and `size` and advances `tail` by one. -/
theorem sidebus_push_ok_cursors (alloc : Nat → Bool) (b : sidebus_t) (p : vlc_side_packet_t)
    (r : Int) (bus1 : Option sidebus_t)
    (h : sidebus_push alloc (some b) (some p) = .ok (r, bus1)) :
    r = 0 ∧ ∃ b1, bus1 = some b1 ∧ b1.head = b.head ∧ b1.tail = b.tail + 1 ∧
      b1.size = b.size := by
  cases hp : p.head with
  | released => simp [sidebus_push, hp, deep_clone_entry_list] at h; split at h <;> simp at h
  | chain E =>
    by_cases hf : b.size ≤ size_diff b.tail b.head
    · cases hes : (b.ring (slot_index b.head)).head with
      | released => rw [sidebus_push_stale alloc b p hf hes] at h; simp at h
      | chain es =>
        rw [sidebus_push_full alloc b p E es hp hf hes] at h
        simp only [Except.ok.injEq, Prod.mk.injEq] at h
        exact ⟨h.1.symm, _, h.2.symm, rfl, rfl, rfl⟩
    · rw [sidebus_push_not_full alloc b p E hp hf] at h
      simp only [Except.ok.injEq, Prod.mk.injEq] at h
      exact ⟨h.1.symm, _, h.2.symm, rfl, rfl, rfl⟩

/-- Result code and cursors of a push that meets no stale pointer:
`sidebus_push` returns -1 exactly when the bus or the record is null, and
then hands the bus back unchanged; for non-null arguments on a bus with
`head ≤ tail`, the record's list and, on a full bus, the list about to be
freed not being stale pointers, it returns 0, advances `tail` by exactly one
and leaves `head` unchanged, with or without an eviction. -/
theorem sidebus_push_result (alloc : Nat → Bool) (bus : Option sidebus_t)
    (inp : Option vlc_side_packet_t) :
    (∀ r bus1, sidebus_push alloc bus inp = .ok (r, bus1) →
      (r = -1 ↔ (bus = none ∨ inp = none))) ∧
    ((bus = none ∨ inp = none) → sidebus_push alloc bus inp = .ok (-1, bus)) ∧
    (∀ b p, bus = some b → inp = some p → p.head ≠ .released → b.head ≤ b.tail →
      evictee_live b →
      ∃ b1, sidebus_push alloc bus inp = .ok (0, some b1) ∧
        b1.tail = b.tail + 1 ∧ b1.head = b.head) := by
  refine ⟨?_, sidebus_push_null alloc bus inp, ?_⟩
  · intro r bus1 h
    constructor
    · intro hr
      by_contra hn
      push_neg at hn
      obtain ⟨b, hb⟩ := Option.ne_none_iff_exists'.mp hn.1
      obtain ⟨p, hp⟩ := Option.ne_none_iff_exists'.mp hn.2
      subst hb hp
      have := (sidebus_push_ok_cursors alloc b p r bus1 h).1
      omega
    · intro hn
      rw [sidebus_push_null alloc bus inp hn] at h
      simp only [Except.ok.injEq, Prod.mk.injEq] at h
      exact h.1.symm
  · intro b p hb hp hlive hle hev
    subst hb hp
    obtain ⟨E, hE⟩ := entry_list_live _ hlive
    obtain ⟨b1, h1, hh, ht, _⟩ := sidebus_push_spec alloc b p E hE hle hev
    exact ⟨b1, h1, ht, hh⟩

set_option maxRecDepth 200000 in
/-- C9 (code defect): push the sample records on a new bus, with no pop.
The 257th push, the first one that evicts, returns 0 with `head = 0` and
`tail = 257`.  After 258 pushes the bus is full (`head = 0 ≤ tail = 258`) and
the slot at `head % 256 = 0` holds the pointer that the 258th push freed and
left in place.  The 259th push, with a non-null bus and a non-null record,
frees that pointer again: it ends in a double free instead of returning 0
with `tail = 259`. -/
theorem push_double_free_on_eviction :
    (match push_all alloc_ok sidebus_new (records 256) with
      | .ok b =>
        match sidebus_push alloc_ok (some b) (some ⟨2304, .chain [entry_a], 3⟩) with
        | .ok (r, b1) => some (r, b1.map (fun b1 => (b1.head, b1.tail)))
        | .error _ => none
      | .error _ => none) = some (0, some (0, 257)) ∧
    observe (push_all alloc_ok sidebus_new (records 258))
      (fun b => (b.head, b.tail, decide (b.size ≤ size_diff b.tail b.head),
        (b.ring (slot_index b.head)).head)) = some (0, 258, true, .released) ∧
    (match push_all alloc_ok sidebus_new (records 258) with
      | .ok b => fault_of (sidebus_push alloc_ok (some b) (some ⟨2322, .chain [entry_a], 3⟩))
      | .error _ => none) = some .double_free := by
  decide

/-! ## C10: the overflow scenario -/

theorem push_all_append (alloc : Nat → Bool) (ps qs : List vlc_side_packet_t) :
    ∀ b : sidebus_t, push_all alloc b (ps ++ qs) =
      match push_all alloc b ps with
      | .ok b1 => push_all alloc b1 qs
      | .error f => .error f := by
  induction ps with
  | nil => intro b; simp [push_all]
  | cons p ps ih =>
    intro b
    simp only [List.cons_append, push_all]
    cases h : sidebus_push alloc (some b) (some p) with
    | error f => simp
    | ok v =>
      obtain ⟨r, bus1⟩ := v
      obtain ⟨_, b1, hb1, _⟩ := sidebus_push_ok_cursors alloc b p r bus1 h
      subst hb1
      simp [ih]

theorem stream_succ (t : Nat → Int) (E : Nat → List vlc_side_entry_t) (c : Nat → Int)
    (n : Nat) :
    stream t E c (n + 1) =
      stream t E c n ++ [{ pts := t n, head := .chain (E n), codec_id := c n }] := by
  simp [stream, List.range_succ]

theorem slot_index_val (i : Nat) (h : i < 256) : (slot_index i).val = i := by
  simp only [slot_index]
  exact Nat.mod_eq_of_lt h

/-- Filling a new bus with the first `n ≤ 256` records of a stream. -/
theorem push_all_fill (t : Nat → Int) (E : Nat → List vlc_side_entry_t) (c : Nat → Int) :
    ∀ n, n ≤ SIDEINFO_BUS_CAP →
      ∃ b, push_all alloc_ok sidebus_new (stream t E c n) = .ok b ∧
        b.head = 0 ∧ b.tail = n ∧ b.size = SIDEINFO_BUS_CAP ∧
        ∀ j : Fin SIDEINFO_BUS_CAP,
          b.ring j = if j.val < n then stored t E c j.val else zero_slot := by
  intro n
  induction n with
  | zero =>
    intro _
    exact ⟨sidebus_new, rfl, rfl, rfl, rfl, fun j => by simp [sidebus_new]⟩
  | succ n ih =>
    intro hn
    have hn256 : n + 1 ≤ 256 := hn
    obtain ⟨b, hb, hh, ht, hs, hring⟩ := ih (by omega)
    have hnf : ¬ b.size ≤ b.tail - b.head := by
      rw [hs, ht, hh]
      omega
    obtain ⟨b1, hpush, hh1, ht1, hs1, hslot, hoth⟩ := sidebus_push_spec alloc_ok b
      { pts := t n, head := .chain (E n), codec_id := c n } (E n) rfl (by omega)
      (fun hfull => absurd hfull hnf)
    refine ⟨b1, ?_, ?_, ?_, ?_, ?_⟩
    · rw [stream_succ, push_all_append, hb]
      simp only [push_all, hpush]
    · rw [hh1, hh]
    · rw [ht1, ht]
    · rw [hs1, hs]
    · intro j
      by_cases hj : j = slot_index b.tail
      · subst hj
        rw [hslot]
        simp [ht, slot_index_val n (by omega), stored, deep_clone_loop_ok]
      · rw [((hoth j hj).2.2 (Or.inl hnf)), hring j]
        have hne : j.val ≠ n := by
          intro he
          apply hj
          apply Fin.ext
          rw [ht, slot_index_val n (by omega)]
          exact he
        by_cases hlt : j.val < n
        · rw [if_pos hlt, if_pos (by omega)]
        · rw [if_neg hlt, if_neg (by omega)]

/-- The bus after 257 pushes on a new bus: slot 0 holds the 257th record,
every other slot the record pushed into it. -/
theorem push_all_overflow (t : Nat → Int) (E : Nat → List vlc_side_entry_t) (c : Nat → Int) :
    ∃ b, push_all alloc_ok sidebus_new (stream t E c 257) = .ok b ∧
      b.head = 0 ∧ b.tail = 257 ∧
      b.ring (slot_index 0) = stored t E c 256 ∧
      ∀ j : Fin SIDEINFO_BUS_CAP, j ≠ slot_index 0 → b.ring j = stored t E c j.val := by
  obtain ⟨b, hb, hh, ht, hs, hring⟩ := push_all_fill t E c 256 (le_refl _)
  have h0 : slot_index b.tail = slot_index 0 := by
    rw [ht]
    rfl
  have hlive : evictee_live b := by
    intro _
    rw [hh, hring]
    simp [slot_index, stored]
  obtain ⟨b1, hpush, hh1, ht1, _, hslot, hoth⟩ := sidebus_push_spec alloc_ok b
    { pts := t 256, head := .chain (E 256), codec_id := c 256 } (E 256) rfl (by omega) hlive
  refine ⟨b1, ?_, ?_, ?_, ?_, ?_⟩
  · rw [stream_succ, push_all_append, hb]
    simp only [push_all, hpush]
  · rw [hh1, hh]
  · rw [ht1, ht]
  · rw [← h0, hslot]
    simp [stored, deep_clone_loop_ok]
  · intro j hj
    have hj1 : j ≠ slot_index b.tail := by
      rw [h0]
      exact hj
    have hj2 : j ≠ slot_index b.head := by
      rw [hh]
      exact hj
    rw [(hoth j hj1).2.2 (Or.inr hj2), hring j, if_pos j.isLt]

/-- Timestamps that step by more than a non-negative tolerance. -/
theorem stream_gap (t : Nat → Int) (tol : Int) (htol : 0 ≤ tol)
    (hsep : ∀ i, i < 256 → t i + tol < t (i + 1)) :
    ∀ j, j ≤ 256 → ∀ i, i < j → t i + tol < t j := by
  intro j
  induction j with
  | zero => intro _ i hi; omega
  | succ j ih =>
    intro hj i hi
    have hstep := hsep j (by omega)
    by_cases hij : i = j
    · subst hij
      exact hstep
    · have := ih (by omega) i (by omega)
      omega

/-- The overflow scenario up to the delivery: after the 257 pushes the pop at
`t 0` misses and the pop at `t 256` delivers from slot 0. -/
theorem overflow_core (F : Int) (t : Nat → Int) (E : Nat → List vlc_side_entry_t)
    (c : Nat → Int) (o : vlc_side_packet_t) (htol : 0 ≤ SIDEINFO_PTS_TOL F)
    (hsep : ∀ i, i < 256 → t i + SIDEINFO_PTS_TOL F < t (i + 1))
    (hrange : t 256 - t 0 < INT64_MAX) :
    ∃ b, push_all alloc_ok sidebus_new (stream t E c 257) = .ok b ∧
      b.head = 0 ∧ b.tail = 257 ∧
      b.ring (slot_index 0) = stored t E c 256 ∧
      (∀ j : Fin SIDEINFO_BUS_CAP, j ≠ slot_index 0 → b.ring j = stored t E c j.val) ∧
      sidebus_pop F alloc_ok (some b) (some o) (t 0) = .ok (false, some b, some o) ∧
      sidebus_pop F alloc_ok (some b) (some o) (t 256) =
        pop_deliver alloc_ok b o (slot_index 0) := by
  obtain ⟨b, hb, hh, ht, h0, hoth⟩ := push_all_overflow t E c
  have hgap := stream_gap t (SIDEINFO_PTS_TOL F) htol hsep
  have hpts : ∀ j : Fin SIDEINFO_BUS_CAP, ∃ n, 1 ≤ n ∧ n ≤ 256 ∧ (b.ring j).pts = t n ∧
      (n = 256 → j = slot_index 0) := by
    intro j
    by_cases hj : j = slot_index 0
    · exact ⟨256, by omega, le_refl _, by rw [hj, h0]; rfl, fun _ => hj⟩
    · have hv : j.val ≠ 0 := by
        intro he
        apply hj
        apply Fin.ext
        rw [he]
        rfl
      have hlt : j.val < 256 := j.isLt
      exact ⟨j.val, by omega, by omega, by rw [hoth j hj]; rfl, fun h => by omega⟩
  have hne : b.head < b.tail := by
    rw [hh, ht]
    omega
  refine ⟨b, hb, hh, ht, h0, hoth, ?_, ?_⟩
  · -- the pop at `t 0`: every slot is more than the tolerance later
    have hfar : ∀ m, SIDEINFO_PTS_TOL F < slot_diff b (t 0) m ∧
        slot_diff b (t 0) m < INT64_MAX := by
      intro m
      obtain ⟨n, hn1, hn2, hn, _⟩ := hpts (slot_index m)
      have g1 := hgap n hn2 0 (by omega)
      have g2 : t n ≤ t 256 := by
        by_cases h256 : n = 256
        · rw [h256]
        · have := hgap 256 (le_refl _) n (by omega)
          omega
      simp only [slot_diff, hn]
      constructor <;> omega
    have hr : ticks_in_range b (t 0) := by
      intro m _
      have := hfar m
      rw [abs_of_pos (by omega)]
      exact this.2
    obtain ⟨m, hm, hs, _, _⟩ := pop_scan_select b (t 0) hr hne
    have := hfar m
    rw [sidebus_pop_of_scan F alloc_ok b o (t 0) m (hr m hm) hs,
      if_pos (by rw [abs_of_pos (by omega)]; exact this.1)]
  · -- the pop at `t 256`: only slot 0 is at distance 0
    have hnear : ∀ m, slot_diff b (t 256) m ≤ 0 ∧ -INT64_MAX < slot_diff b (t 256) m ∧
        (slot_diff b (t 256) m = 0 → slot_index m = slot_index 0) := by
      intro m
      obtain ⟨n, hn1, hn2, hn, hn0⟩ := hpts (slot_index m)
      have g1 := hgap n hn2 0 (by omega)
      simp only [slot_diff, hn]
      by_cases h256 : n = 256
      · subst h256
        exact ⟨by omega, by unfold INT64_MAX; omega, fun _ => hn0 rfl⟩
      · have := hgap 256 (le_refl _) n (by omega)
        exact ⟨by omega, by omega, fun h => by omega⟩
    have hr : ticks_in_range b (t 256) := by
      intro m _
      have := hnear m
      rw [abs_of_nonpos this.1]
      omega
    obtain ⟨m, hm, hs, hmin, _⟩ := pop_scan_select b (t 256) hr hne
    have hw0 : 0 ∈ window b := by
      rw [mem_window]
      omega
    have hd0 : slot_diff b (t 256) 0 = 0 := by
      simp only [slot_diff, h0, stored]
      omega
    have hdm : slot_diff b (t 256) m = 0 := by
      have := hmin 0 hw0
      rw [hd0] at this
      simpa using this
    have hsm := (hnear m).2.2 hdm
    rw [sidebus_pop_of_scan F alloc_ok b o (t 256) m (hr m hm) hs, hdm,
      if_neg (by simpa using htol), hsm]

/-- C10, as stated, fails: with a tolerance of 8 ticks and 257 records 9
ticks apart pushed on a new bus, (a) the pop at the last timestamp 2304 hits
and leaves `tail - head = 256`, not 255; (b) when the 257th record carries a
NULL list, the pop at 2304 reports a hit but the caller's record keeps its
own timestamp (77). -/
theorem overflow_scenario_counterexample :
    (∃ b b2, push_all alloc_ok sidebus_new (records 257) = .ok b ∧
      sidebus_pop 1000 alloc_ok (some b) (some zero_slot) 2304 =
        .ok (true, some b2, some ⟨2304, .chain [entry_a], 3⟩) ∧
      b2.head = 1 ∧ b2.tail = 257 ∧ b2.tail - b2.head = 256) ∧
    (∃ b, push_all alloc_ok sidebus_new records_null_last = .ok b ∧
      sidebus_pop 1000 alloc_ok (some b) (some ⟨77, .chain [], 9⟩) 2304 =
        .ok (true, some b, some ⟨77, .chain [], 9⟩)) := by
  have htol : SIDEINFO_PTS_TOL 1000 = 8 := by decide
  have hsep : ∀ i, i < 256 →
      (fun i : Nat => 9 * (i : Int)) i + SIDEINFO_PTS_TOL 1000 <
        (fun i : Nat => 9 * (i : Int)) (i + 1) := by
    intro i _
    rw [htol]
    simp only
    push_cast
    omega
  have e256 : (9 * ((256 : Nat) : Int)) = 2304 := by norm_num
  constructor
  · obtain ⟨b, hb, hh, ht, h0, _, _, hpop⟩ := overflow_core 1000 (fun i => 9 * (i : Int))
      (fun _ => [entry_a]) (fun _ => 3) zero_slot (by decide) hsep (by decide)
    have hes : (b.ring (slot_index 0)).head = .chain [entry_a] := by
      rw [h0]
      rfl
    have hdel := pop_deliver_chain alloc_ok b zero_slot (slot_index 0) [entry_a] [entry_a] hes
      rfl (by decide)
    simp only [e256] at hpop
    refine ⟨b,
      { b with
        ring := ring_set b.ring (slot_index 0)
          { b.ring (slot_index 0) with head := .released, pts := 0 },
        head := b.head + 1 },
      hb, ?_, ?_, ?_, ?_⟩
    · rw [hpop, hdel, h0]
      rfl
    · simp [hh]
    · simp [ht]
    · simp [hh, ht]
  · obtain ⟨b, hb, _, _, h0, _, _, hpop⟩ := overflow_core 1000 (fun i => 9 * (i : Int))
      (fun i => if i = 256 then [] else [entry_a]) (fun _ => 3) ⟨77, .chain [], 9⟩
      (by decide) hsep (by decide)
    have hes : (b.ring (slot_index 0)).head = .chain [] := by
      rw [h0]
      rfl
    have hdel := pop_deliver_null alloc_ok b ⟨77, .chain [], 9⟩ (slot_index 0) [] hes rfl
    simp only [e256] at hpop
    exact ⟨b, hb, by rw [hpop, hdel]⟩

/-- C10 (amended): push 257 records on a new bus, with timestamps
`t 0 < ... < t 256` stepping by more than the (non-negative) tolerance, the
last record carrying a non-empty list of well-formed entries, allocation
succeeding and `t 256 - t 0` within 64-bit range.  Then the pop at `t 0`
misses and leaves the bus as it was; the pop at `t 256` hits and returns
exactly `(t 256, codec, E 256)`; after that hit slot 0 has been released and
each of the other 255 slots still holds the record pushed into it. -/
theorem overflow_scenario (F : Int) (t : Nat → Int) (E : Nat → List vlc_side_entry_t)
    (c : Nat → Int) (o : vlc_side_packet_t) (htol : 0 ≤ SIDEINFO_PTS_TOL F)
    (hsep : ∀ i, i < 256 → t i + SIDEINFO_PTS_TOL F < t (i + 1))
    (hrange : t 256 - t 0 < INT64_MAX) (hE : E 256 ≠ []) (hwf : ∀ e ∈ E 256, entry_wf e) :
    ∃ b b2, push_all alloc_ok sidebus_new (stream t E c 257) = .ok b ∧
      sidebus_pop F alloc_ok (some b) (some o) (t 0) = .ok (false, some b, some o) ∧
      sidebus_pop F alloc_ok (some b) (some o) (t 256) =
        .ok (true, some b2, some ⟨t 256, .chain (E 256), c 256⟩) ∧
      (b2.ring (slot_index 0)).head = .released ∧
      ∀ k, 1 ≤ k → k < 256 → b2.ring (slot_index k) = stored t E c k := by
  obtain ⟨b, hb, _, _, h0, hoth, hmiss, hpop⟩ := overflow_core F t E c o htol hsep hrange
  have hmap := map_clone_entry_wf (E 256) hwf
  have hes : (b.ring (slot_index 0)).head = .chain (E 256) := by
    rw [h0]
    simp [stored, hmap]
  refine ⟨b,
    { b with
      ring := ring_set b.ring (slot_index 0)
        { b.ring (slot_index 0) with head := .released, pts := 0 },
      head := b.head + 1 },
    hb, hmiss, ?_, ?_, ?_⟩
  · rw [hpop, pop_deliver_chain alloc_ok b o (slot_index 0) (E 256) (E 256) hes
      (by rw [deep_clone_chain_ok, hmap]) hE]
    simp [h0, stored]
  · simp [ring_set_same]
  · intro k hk1 hk2
    have hne0 : slot_index k ≠ slot_index 0 := by
      intro he
      have := congrArg Fin.val he
      rw [slot_index_val k (by omega), slot_index_val 0 (by omega)] at this
      omega
    simp only [ring_set_other _ _ _ _ hne0]
    rw [hoth _ hne0, slot_index_val k (by omega)]

/-- C10 witness: timestamps `9 * i`, tolerance 8, one entry per record. -/
theorem overflow_scenario_witness :
    ∃ b b2, push_all alloc_ok sidebus_new
        (stream (fun i => 9 * (i : Int)) (fun _ => [entry_a]) (fun _ => 3) 257) = .ok b ∧
      sidebus_pop 1000 alloc_ok (some b) (some zero_slot) ((fun i : Nat => 9 * (i : Int)) 0) =
        .ok (false, some b, some zero_slot) ∧
      sidebus_pop 1000 alloc_ok (some b) (some zero_slot) ((fun i : Nat => 9 * (i : Int)) 256) =
        .ok (true, some b2,
          some ⟨(fun i : Nat => 9 * (i : Int)) 256, .chain ((fun _ => [entry_a]) 256),
            (fun _ => 3) 256⟩) ∧
      (b2.ring (slot_index 0)).head = .released ∧
      ∀ k, 1 ≤ k → k < 256 →
        b2.ring (slot_index k) =
          stored (fun i => 9 * (i : Int)) (fun _ => [entry_a]) (fun _ => 3) k :=
  overflow_scenario 1000 (fun i => 9 * (i : Int)) (fun _ => [entry_a]) (fun _ => 3) zero_slot
    (by decide)
    (fun i _ => by
      have h : SIDEINFO_PTS_TOL 1000 = 8 := by decide
      rw [h]
      simp only
      push_cast
      omega)
    (by decide) (by decide) (by decide)

/-! ## C11: pop on an empty window -/

/-- C11: on a bus with `head = tail`, `sidebus_pop` misses for every target
and every allocator, and returns the bus and the caller's output record
exactly as they were passed. -/
theorem pop_empty (F : Int) (alloc : Nat → Bool) (b : sidebus_t) (o : vlc_side_packet_t)
    (pts : Int) (h : b.head = b.tail) :
    sidebus_pop F alloc (some b) (some o) pts = .ok (false, some b, some o) :=
  sidebus_pop_of_empty F alloc b o pts (by omega)

/-- C11 witness: a new bus, target 42, an allocator that always fails. -/
theorem pop_empty_witness :
    sidebus_pop 1000000 (fun _ => false) (some sidebus_new) (some ⟨77, .chain [entry_a], 9⟩) 42 =
      .ok (false, some sidebus_new, some ⟨77, .chain [entry_a], 9⟩) :=
  pop_empty 1000000 (fun _ => false) sidebus_new ⟨77, .chain [entry_a], 9⟩ 42 rfl

/-! ## C12: deep copy -/

theorem deep_clone_loop_all (alloc : Nat → Bool) (hall : ∀ k, alloc k = true)
    (es : List vlc_side_entry_t) :
    ∀ k : Nat, deep_clone_loop alloc k es = some (es.map clone_entry) := by
  induction es with
  | nil => intro k; simp [deep_clone_loop]
  | cons e es ih =>
    intro k
    unfold deep_clone_loop
    simp [hall, ih]

/-- C12: when every allocation succeeds, `deep_clone_entry_list` returns a
list with as many entries as the source, in the same order, each with the
type, flags and size of its source entry and the `size` bytes of its buffer;
for well-formed source entries the data is absent exactly when the size is
0 and the copy equals the source; the clone of the NULL list is the NULL
list. -/
theorem deep_clone_copies (alloc : Nat → Bool) (hall : ∀ k, alloc k = true)
    (es : List vlc_side_entry_t) :
    ∃ c, deep_clone_entry_list alloc (.chain es) = .ok c ∧
      c.length = es.length ∧
      List.Forall₂ (fun s e => e.type = s.type ∧ e.flags = s.flags ∧ e.size = s.size ∧
        e.data = s.data.take s.size ∧ (s.size = 0 → e.data = []) ∧
        (entry_wf s → (e.data = [] ↔ e.size = 0) ∧ e = s)) es c ∧
      deep_clone_entry_list alloc (.chain []) = .ok [] := by
  refine ⟨es.map clone_entry, ?_, by simp, ?_, ?_⟩
  · simp [deep_clone_entry_list, deep_clone_loop_all alloc hall]
  · rw [List.forall₂_map_right_iff]
    apply List.forall₂_same.mpr
    intro s _
    refine ⟨rfl, rfl, rfl, ?_, ?_, ?_⟩
    · by_cases h0 : s.size = 0 <;> simp [clone_entry, h0]
    · intro h0
      simp [clone_entry, h0]
    · intro hwf
      rw [clone_entry_wf s hwf]
      refine ⟨?_, rfl⟩
      unfold entry_wf at hwf
      rw [← hwf]
      exact List.length_eq_zero.symm
  · simp [deep_clone_entry_list, deep_clone_loop]

/-- C12 witness: the list `[entry_a, entry_b]` under `alloc_ok`. -/
theorem deep_clone_copies_witness :
    ∃ c, deep_clone_entry_list alloc_ok (.chain [entry_a, entry_b]) = .ok c ∧
      c.length = [entry_a, entry_b].length ∧
      List.Forall₂ (fun s e => e.type = s.type ∧ e.flags = s.flags ∧ e.size = s.size ∧
        e.data = s.data.take s.size ∧ (s.size = 0 → e.data = []) ∧
        (entry_wf s → (e.data = [] ↔ e.size = 0) ∧ e = s)) [entry_a, entry_b] c ∧
      deep_clone_entry_list alloc_ok (.chain []) = .ok [] :=
  deep_clone_copies alloc_ok (fun _ => rfl) [entry_a, entry_b]

/-! ## C13: one bus per root -/

/-- C13: on a root whose bus variable is absent or NULL, the first
`sidebus_acquire` (allocation succeeding) returns a new address, at which the
bus has `head = tail = 0`, `size = 256` and 256 zeroed slots (timestamp 0,
NULL list), and records that address in the root's variable.  Whatever the
bus at that address has become through later pushes and pops (any contents
`b`), every later `sidebus_acquire` returns the same address and leaves the
root, its variable and the bus untouched. -/
theorem acquire_singleton (root : libvlc_int_t)
    (hnull : var_GetAddress (var_Create root) = none) :
    (sidebus_acquire true root).2 = some root.brk ∧
    (sidebus_acquire true root).1.heap root.brk = some sidebus_new ∧
    var_GetAddress (sidebus_acquire true root).1 = some root.brk ∧
    (sidebus_new.head = 0 ∧ sidebus_new.tail = 0 ∧ sidebus_new.size = 256 ∧
      ∀ k, sidebus_new.ring k = { pts := 0, head := .chain [], codec_id := 0 }) ∧
    ∀ (b : sidebus_t) (c : Bool),
      sidebus_acquire c (bus_store (sidebus_acquire true root).1 root.brk b) =
        (bus_store (sidebus_acquire true root).1 root.brk b, some root.brk) ∧
      (bus_store (sidebus_acquire true root).1 root.brk b).heap root.brk = some b := by
  have hbrk : (var_Create root).brk = root.brk := by
    unfold var_Create
    split <;> rfl
  have hvar : ∃ v, (var_Create root).sideinfo_bus = some v := by
    unfold var_Create
    split
    · exact ⟨none, rfl⟩
    · next v h => exact ⟨v, h⟩
  obtain ⟨v, hv⟩ := hvar
  have hacq : sidebus_acquire true root =
      ({ sideinfo_bus := some (some root.brk),
         heap := fun q => if q = root.brk then some sidebus_new else (var_Create root).heap q,
         brk := root.brk + 1 }, some root.brk) := by
    simp only [sidebus_acquire, hnull, hbrk]
    simp [var_SetAddress, bus_store, hv]
  rw [hacq]
  refine ⟨rfl, ?_, rfl, ⟨rfl, rfl, rfl, fun _ => rfl⟩, ?_⟩
  · simp
  · intro b c
    constructor
    · simp [sidebus_acquire, bus_store, var_GetAddress, var_Create]
    · simp [bus_store]

/-- C13 witness: the root `root_empty`, which has no bus variable. -/
theorem acquire_singleton_witness :
    (sidebus_acquire true root_empty).2 = some root_empty.brk ∧
    (sidebus_acquire true root_empty).1.heap root_empty.brk = some sidebus_new ∧
    var_GetAddress (sidebus_acquire true root_empty).1 = some root_empty.brk ∧
    (sidebus_new.head = 0 ∧ sidebus_new.tail = 0 ∧ sidebus_new.size = 256 ∧
      ∀ k, sidebus_new.ring k = { pts := 0, head := .chain [], codec_id := 0 }) ∧
    ∀ (b : sidebus_t) (c : Bool),
      sidebus_acquire c (bus_store (sidebus_acquire true root_empty).1 root_empty.brk b) =
        (bus_store (sidebus_acquire true root_empty).1 root_empty.brk b,
          some root_empty.brk) ∧
      (bus_store (sidebus_acquire true root_empty).1 root_empty.brk b).heap root_empty.brk =
        some b :=
  acquire_singleton root_empty rfl

/-! ## C14: teardown -/

set_option maxRecDepth 200000 in
/-- C14 (code defect): acquire a bus on `root_empty` (address 1) and push one
record with a one-entry list (the bus is then `bus_one`).  The first
`sidebus_release` succeeds, keeps the root's variable at address 1 and frees
the list of slot 0, but leaves the stale pointer in the slot; the second
`sidebus_release` walks that stale pointer again: a double free.  A release
that follows a successful pop double-frees at once, for the same reason. -/
theorem release_twice_double_free :
    (sidebus_acquire true root_empty).2 = some 1 ∧
    (match sidebus_release (bus_store (sidebus_acquire true root_empty).1 1 bus_one) with
      | .ok r =>
        (var_GetAddress r, (r.heap 1).map (fun b => (b.ring (slot_index 0)).head),
          fault_of (sidebus_release r))
      | .error _ => (none, none, none)) = (some 1, some .released, some .double_free) ∧
    (match pop_bus (sidebus_pop 1000000 alloc_ok (some bus_one) (some zero_slot) 5) with
      | some b => fault_of (sidebus_release (bus_store (sidebus_acquire true root_empty).1 1 b))
      | none => none) = some .double_free := by
  decide

/-! ## C15, C16: what a pop does to the other records -/

/-- C15 (code defect): push `(91, [entry_a])` and `(109, [entry_b])` on a new
bus (this is `bus_two`; tolerance 8 ticks).  The pop at 109 hits slot 1 and
returns that record, but advances `head` past slot 0: the window becomes
`[1, 2)`, which holds only the cleared slot 1.  The record at 91 is still in
slot 0 with its list, yet the pop at its exact timestamp 91 is a miss. -/
theorem pop_drops_other_record :
    observe (push_all alloc_ok sidebus_new
        [⟨91, .chain [entry_a], 1⟩, ⟨109, .chain [entry_b], 2⟩])
      (fun b => (b.head, b.tail, b.ring (slot_index 0), b.ring (slot_index 1))) =
      some (0, 2, bus_two.ring (slot_index 0), bus_two.ring (slot_index 1)) ∧
    pop_hit (sidebus_pop 1000 alloc_ok (some bus_two) (some zero_slot) 109) = some true ∧
    pop_out (sidebus_pop 1000 alloc_ok (some bus_two) (some zero_slot) 109) =
      some ⟨109, .chain [entry_b], 2⟩ ∧
    (pop_bus (sidebus_pop 1000 alloc_ok (some bus_two) (some zero_slot) 109)).map
      (fun b => (b.head, b.tail, b.ring (slot_index 0), b.ring (slot_index 1))) =
      some (1, 2, ⟨91, .chain [entry_a], 1⟩, ⟨0, .released, 2⟩) ∧
    pop_hit (pop_after_pop 1000 alloc_ok bus_two zero_slot 109 91) = some false := by
  decide

/-- C16 (code defect): on `bus_two` the pop at 109 hits physical slot 1 and
clears it (timestamp 0, list freed, pointer left in place), but the slot
stays inside the window `[1, 2)`.  A second pop, at target 0, scans that same
slot, finds it at distance 0, within the tolerance, and clones its freed
list: a use after free on the slot that was already delivered. -/
theorem pop_revisits_cleared_slot :
    (pop_scan bus_two 109).best_idx = 1 ∧
    pop_hit (sidebus_pop 1000 alloc_ok (some bus_two) (some zero_slot) 109) = some true ∧
    (pop_bus (sidebus_pop 1000 alloc_ok (some bus_two) (some zero_slot) 109)).map
      (fun b => (window b, (pop_scan b 0).best_idx, (pop_scan b 0).best_absdiff,
        b.ring (slot_index 1))) = some ([1], 1, 0, ⟨0, .released, 2⟩) ∧
    fault_of (pop_after_pop 1000 alloc_ok bus_two zero_slot 109 0) =
      some .use_after_free := by
  decide

end SideinfoBus

namespace SideinfoOverlay

/-! ## C17: luma of the residual-size map -/

/-- Within the range the code computes `vmax` for, the luma stays in
16..235. -/
theorem res_size_luma_range (vmax v : Nat) (h1 : 1 ≤ vmax) (hv : v ≤ vmax)
    (h16 : vmax < 65536) :
    16 ≤ res_size_luma vmax v ∧ res_size_luma vmax v ≤ 235 := by
  unfold res_size_luma
  have hm : (219 * v) % 4294967296 = 219 * v := Nat.mod_eq_of_lt (by omega)
  have hq : 219 * v / vmax ≤ 219 := by
    apply Nat.div_le_of_le_mul
    nlinarith
  rw [hm]
  generalize 219 * v / vmax = q at hq ⊢
  omega

/-- C17 (code defect): for the table `mb_w = 1`, `mb_h = 2`, values
`[1, 0, 7, 0]` (two rows of one block, each followed by the padding entry
that the extra `++blk_idx` skips), `vmax` is taken over the first
`mb_w * mb_h = 2` values and is 1, while the second row reads `vals[2] = 7`:
`219 * 7 / 1 = 1533`, cut to `uint8_t` 253, and `16 + 253` stored in a
`uint8_t` is 13.  The lumas passed to `draw_solid_rect_Y` are 235 and 13. -/
theorem res_size_luma_escapes :
    value_of (res_size_rects 32 32 1 2 16 [1, 0, 7, 0]) =
      some [(0, 0, 16, 16, 235), (0, 16, 16, 16, 13)] ∧
    value_of (res_size_vmax [1, 0, 7, 0] (List.range 2) 1) = some 1 ∧
    res_size_luma 1 7 = 13 ∧ ¬ (16 ≤ res_size_luma 1 7 ∧ res_size_luma 1 7 ≤ 235) := by
  decide

/-! ## C18: the line loop -/

theorem int_chk_lit (v : Int) (h1 : -2147483648 ≤ v) (h2 : v ≤ 2147483647) :
    int_chk v = .ok v := by
  simp [int_chk, INT_MIN, INT_MAX, h1, h2]

/-- One pass through the loop body when no `int` operation overflows. -/
theorem line_step_ok (dx dy sx sy x0 y0 err : Int)
    (he2 : -2147483648 ≤ 2 * err ∧ 2 * err ≤ 2147483647)
    (h1 : 2 * err ≥ dy → (-2147483648 ≤ err + dy ∧ err + dy ≤ 2147483647) ∧
      (-2147483648 ≤ x0 + sx ∧ x0 + sx ≤ 2147483647))
    (h2 : 2 * err ≤ dx →
      (-2147483648 ≤ (if 2 * err ≥ dy then err + dy else err) + dx ∧
        (if 2 * err ≥ dy then err + dy else err) + dx ≤ 2147483647) ∧
      (-2147483648 ≤ y0 + sy ∧ y0 + sy ≤ 2147483647)) :
    line_step dx dy sx sy x0 y0 err =
      .ok (if 2 * err ≥ dy then x0 + sx else x0, if 2 * err ≤ dx then y0 + sy else y0,
        (if 2 * err ≥ dy then err + dy else err) + (if 2 * err ≤ dx then dx else 0)) := by
  unfold line_step
  rw [int_chk_lit _ he2.1 he2.2]
  simp only [Except.bind]
  by_cases c1 : 2 * err ≥ dy
  · obtain ⟨⟨a1, a2⟩, ⟨a3, a4⟩⟩ := h1 c1
    simp only [if_pos c1, int_chk_lit _ a1 a2, int_chk_lit _ a3 a4, Except.bind]
    by_cases c2 : 2 * err ≤ dx
    · obtain ⟨⟨b1, b2⟩, ⟨b3, b4⟩⟩ := h2 c2
      rw [if_pos c1] at b1 b2
      simp only [if_pos c2, int_chk_lit _ b1 b2, int_chk_lit _ b3 b4, Except.bind]
    · simp only [if_neg c2, add_zero]
  · simp only [if_neg c1, Except.bind]
    by_cases c2 : 2 * err ≤ dx
    · obtain ⟨⟨b1, b2⟩, ⟨b3, b4⟩⟩ := h2 c2
      rw [if_neg c1] at b1 b2
      simp only [if_pos c2, int_chk_lit _ b1 b2, int_chk_lit _ b3 b4, Except.bind]
    · simp only [if_neg c2, add_zero]

/-- The loop of `draw_line_Y` from a state with `rx` steps left along x and
`ry` along y: it ends within `rx + ry + 1` iterations, having plotted a
sequence of points that starts at the current point and ends at
`(x1, y1)`. -/
theorem draw_line_loop_spec (a b sx sy x1 y1 : Int) (yval : Nat)
    (ha : 0 ≤ a) (hb : 0 ≤ b) (h3a : 3 * a ≤ 2147483647) (h3b : 3 * b ≤ 2147483647)
    (hsx : sx = 1 ∨ sx = -1) (hsy : sy = 1 ∨ sy = -1)
    (hx1 : -2147483648 ≤ x1 ∧ x1 ≤ 2147483647) (hy1 : -2147483648 ≤ y1 ∧ y1 ≤ 2147483647) :
    ∀ (fuel : Nat) (pic : picture_t) (x y err rx ry : Int),
      0 ≤ rx → rx ≤ a → 0 ≤ ry → ry ≤ b → x1 = x + sx * rx → y1 = y + sy * ry →
      err = a - b + rx * b - ry * a → -(3 * b) ≤ 2 * err → 2 * err ≤ 3 * a →
      (-2147483648 ≤ x ∧ x ≤ 2147483647) → (-2147483648 ≤ y ∧ y ≤ 2147483647) →
      rx + ry < fuel →
      ∃ pts : List (Int × Int),
        draw_line_loop a (-b) sx sy x1 y1 yval fuel pic x y err =
          .ok (pts.foldl (fun p q => put_Y p q.1 q.2 yval) pic) ∧
        pts.head? = some (x, y) ∧ pts.getLast? = some (x1, y1) ∧
        (pts.length : Int) ≤ rx + ry + 1 := by
  intro fuel
  induction fuel with
  | zero =>
    intro pic x y err rx ry h1 _ h3 _ _ _ _ _ _ _ _ hf
    exact absurd hf (by push_cast; omega)
  | succ fuel ih =>
    intro pic x y err rx ry hrx0 hrxa hry0 hryb hx hy herr hlo hhi hxr hyr hf
    unfold draw_line_loop
    by_cases hdone : x = x1 ∧ y = y1
    · rw [if_pos hdone]
      refine ⟨[(x, y)], rfl, rfl, ?_, ?_⟩
      · rw [hdone.1, hdone.2]
        rfl
      · simp only [List.length_singleton]
        push_cast
        omega
    · rw [if_neg hdone]
      have e1 : (rx - 1) * b = rx * b - b := by ring
      have e2 : (ry - 1) * a = ry * a - a := by ring
      have hP1 : 1 ≤ rx → b ≤ rx * b := by
        intro h
        have := mul_nonneg (show (0 : Int) ≤ rx - 1 by omega) hb
        omega
      have hQ1 : 1 ≤ ry → a ≤ ry * a := by
        intro h
        have := mul_nonneg (show (0 : Int) ≤ ry - 1 by omega) ha
        omega
      have hP0 : rx = 0 → rx * b = 0 := by
        rintro rfl
        simp
      have hQ0 : ry = 0 → ry * a = 0 := by
        rintro rfl
        simp
      have hsx0 : rx = 0 → x = x1 := by
        rintro rfl
        simp at hx
        exact hx.symm
      have hsy0 : ry = 0 → y = y1 := by
        rintro rfl
        simp at hy
        exact hy.symm
      have hsum : 1 ≤ rx + ry := by
        by_contra hn
        exact hdone ⟨hsx0 (by omega), hsy0 (by omega)⟩
      -- an x step is only taken while `rx ≥ 1`, a y step while `ry ≥ 1`
      have hcx : 2 * err ≥ -b → 1 ≤ rx := by
        intro hc
        by_contra hn
        have h0 : rx = 0 := by omega
        have := hP0 h0
        have := hQ1 (by omega)
        omega
      have hcy : 2 * err ≤ a → 1 ≤ ry := by
        intro hc
        by_contra hn
        have h0 : ry = 0 := by omega
        have := hQ0 h0
        have := hP1 (by omega)
        omega
      have hxs : 1 ≤ rx → x1 = (x + sx) + sx * (rx - 1) ∧
          -2147483648 ≤ x + sx ∧ x + sx ≤ 2147483647 := by
        intro h
        rcases hsx with rfl | rfl
        · simp only [one_mul] at hx ⊢
          omega
        · simp only [neg_mul, one_mul] at hx ⊢
          omega
      have hys : 1 ≤ ry → y1 = (y + sy) + sy * (ry - 1) ∧
          -2147483648 ≤ y + sy ∧ y + sy ≤ 2147483647 := by
        intro h
        rcases hsy with rfl | rfl
        · simp only [one_mul] at hy ⊢
          omega
        · simp only [neg_mul, one_mul] at hy ⊢
          omega
      have hstep := line_step_ok a (-b) sx sy x y err (by omega)
        (fun hc => ⟨by omega, (hxs (hcx hc)).2⟩)
        (fun hc => ⟨by split_ifs <;> omega, (hys (hcy hc)).2⟩)
      rw [hstep]
      simp only
      obtain ⟨pts, hrun, hhead, hlast, hlen⟩ := ih (put_Y pic x y yval)
        (if 2 * err ≥ -b then x + sx else x) (if 2 * err ≤ a then y + sy else y)
        ((if 2 * err ≥ -b then err + -b else err) + (if 2 * err ≤ a then a else 0))
        (if 2 * err ≥ -b then rx - 1 else rx) (if 2 * err ≤ a then ry - 1 else ry)
        (by split_ifs with c <;> [exact (by have := hcx c; omega); exact hrx0])
        (by split_ifs <;> omega)
        (by split_ifs with c <;> [exact (by have := hcy c; omega); exact hry0])
        (by split_ifs <;> omega)
        (by split_ifs with c <;> [exact (hxs (hcx c)).1; exact hx])
        (by split_ifs with c <;> [exact (hys (hcy c)).1; exact hy])
        (by split_ifs <;> omega)
        (by split_ifs <;> omega)
        (by split_ifs <;> omega)
        (by split_ifs with c <;> [exact (hxs (hcx c)).2; exact hxr])
        (by split_ifs with c <;> [exact (hys (hcy c)).2; exact hyr])
        (by
          have : rx + ry < (fuel : Int) + 1 := by exact_mod_cast hf
          split_ifs with c1 c2 c2
          · have := hcx c1; omega
          · have := hcx c1; omega
          · have := hcy c2; omega
          · omega)
      obtain ⟨p, rest, hp⟩ : ∃ p rest, pts = p :: rest := by
        cases pts with
        | nil => simp at hhead
        | cons p rest => exact ⟨p, rest, rfl⟩
      refine ⟨(x, y) :: pts, ?_, rfl, ?_, ?_⟩
      · rw [hrun]
        rfl
      · rw [hp, List.getLast?_cons_cons, ← hp]
        exact hlast
      · simp only [List.length_cons]
        push_cast
        split_ifs at hlen with c1 c2 c2
        · omega
        · omega
        · omega
        · omega

/-- Plotting a sequence of points only appends stores, all of them inside
the visible area. -/
theorem foldl_put_Y_stores (yval : Nat) (pts : List (Int × Int)) :
    ∀ pic : picture_t, ∃ new : List (Int × Int × Nat),
      pts.foldl (fun p q => put_Y p q.1 q.2 yval) pic = { pic with Y := pic.Y ++ new } ∧
      ∀ s ∈ new, 0 ≤ s.1 ∧ s.1 < pic.W ∧ 0 ≤ s.2.1 ∧ s.2.1 < pic.H ∧ s.2.2 = yval ∧
        (s.1, s.2.1) ∈ pts := by
  induction pts with
  | nil =>
    intro pic
    exact ⟨[], by simp, by simp⟩
  | cons q pts ih =>
    intro pic
    obtain ⟨new, hnew, hin⟩ := ih (put_Y pic q.1 q.2 yval)
    simp only [List.foldl_cons, hnew]
    by_cases hg : q.1 < 0 ∨ q.2 < 0 ∨ q.1 ≥ pic.W ∨ q.2 ≥ pic.H
    · have hp : put_Y pic q.1 q.2 yval = pic := by simp [put_Y, hg]
      rw [hp] at hin ⊢
      refine ⟨new, rfl, ?_⟩
      intro s hs
      obtain ⟨h1, h2, h3, h4, h5, h6⟩ := hin s hs
      exact ⟨h1, h2, h3, h4, h5, List.mem_cons_of_mem _ h6⟩
    · have hp : put_Y pic q.1 q.2 yval = { pic with Y := pic.Y ++ [(q.1, q.2, yval)] } := by
        simp [put_Y, hg]
      rw [hp] at hin ⊢
      refine ⟨(q.1, q.2, yval) :: new, by simp, ?_⟩
      intro s hs
      rcases List.mem_cons.mp hs with rfl | hs
      · push_neg at hg
        exact ⟨hg.1, hg.2.2.1, hg.2.1, hg.2.2.2, rfl, List.mem_cons_self _ _⟩
      · obtain ⟨h1, h2, h3, h4, h5, h6⟩ := hin s hs
        exact ⟨h1, h2, h3, h4, h5, List.mem_cons_of_mem _ h6⟩

/-- C18, as stated, fails: the endpoints `(0, 0)` and `(2147483647, 0)` have
coordinate differences that fit in `int`, yet the first pass of the loop
computes `e2 = 2 * err` with `err = 2147483647`, which overflows `int`: the
run has no defined outcome, whatever the iteration budget. -/
theorem line_terminates_counterexample :
    (INT_MIN ≤ (2147483647 : Int) - 0 ∧ (2147483647 : Int) - 0 ≤ INT_MAX) ∧
    (∀ fuel, draw_line_Y (fuel + 1) blank 0 0 2147483647 0 128 = .error .int_overflow) ∧
    (∀ fuel, value_of (draw_line_Y fuel blank 0 0 2147483647 0 128) = none) := by
  have h : ∀ fuel, draw_line_Y (fuel + 1) blank 0 0 2147483647 0 128 =
      .error .int_overflow := by
    intro fuel
    simp [draw_line_Y, draw_line_loop, line_step, int_chk, INT_MIN, INT_MAX, Except.bind]
  refine ⟨by decide, h, ?_⟩
  intro fuel
  cases fuel with
  | zero => rfl
  | succ n => rw [h n]; rfl

/-- C18 (amended): for `int` endpoints with `3 * |x1 - x0|` and
`3 * |y1 - y0|` not above `INT_MAX` (so that `2 * err` never overflows), the
loop of `draw_line_Y` ends within `|x1 - x0| + |y1 - y0| + 1` iterations; the
points it passes to `put_Y` start with `(x0, y0)` and end with `(x1, y1)`,
and every store made lies inside the visible area `0 ≤ x < W`,
`0 ≤ y < H`. -/
theorem line_terminates (pic : picture_t) (x0 y0 x1 y1 : Int) (yval : Nat) (fuel : Nat)
    (hx0 : INT_MIN ≤ x0 ∧ x0 ≤ INT_MAX) (hy0 : INT_MIN ≤ y0 ∧ y0 ≤ INT_MAX)
    (hx1 : INT_MIN ≤ x1 ∧ x1 ≤ INT_MAX) (hy1 : INT_MIN ≤ y1 ∧ y1 ≤ INT_MAX)
    (hdx : 3 * |x1 - x0| ≤ INT_MAX) (hdy : 3 * |y1 - y0| ≤ INT_MAX)
    (hfuel : |x1 - x0| + |y1 - y0| < fuel) :
    ∃ (pts : List (Int × Int)) (new : List (Int × Int × Nat)),
      draw_line_Y fuel pic x0 y0 x1 y1 yval = .ok { pic with Y := pic.Y ++ new } ∧
      pts.foldl (fun p q => put_Y p q.1 q.2 yval) pic = { pic with Y := pic.Y ++ new } ∧
      pts.head? = some (x0, y0) ∧ pts.getLast? = some (x1, y1) ∧
      (pts.length : Int) ≤ |x1 - x0| + |y1 - y0| + 1 ∧
      ∀ s ∈ new, 0 ≤ s.1 ∧ s.1 < pic.W ∧ 0 ≤ s.2.1 ∧ s.2.1 < pic.H := by
  unfold INT_MIN INT_MAX at *
  have ha := abs_nonneg (x1 - x0)
  have hb := abs_nonneg (y1 - y0)
  have hax : (x0 < x1 ∧ |x1 - x0| = x1 - x0) ∨ (¬ x0 < x1 ∧ |x1 - x0| = x0 - x1) := by
    rcases abs_cases (x1 - x0) with ⟨h1, h2⟩ | ⟨h1, h2⟩
    · by_cases hlt : x0 < x1
      · exact Or.inl ⟨hlt, h1⟩
      · exact Or.inr ⟨hlt, by omega⟩
    · exact Or.inr ⟨by omega, by omega⟩
  have hay : (y0 < y1 ∧ |y1 - y0| = y1 - y0) ∨ (¬ y0 < y1 ∧ |y1 - y0| = y0 - y1) := by
    rcases abs_cases (y1 - y0) with ⟨h1, h2⟩ | ⟨h1, h2⟩
    · by_cases hlt : y0 < y1
      · exact Or.inl ⟨hlt, h1⟩
      · exact Or.inr ⟨hlt, by omega⟩
    · exact Or.inr ⟨by omega, by omega⟩
  generalize hA : |x1 - x0| = a at *
  generalize hB : |y1 - y0| = b at *
  have hsx : (if x0 < x1 then (1 : Int) else -1) = 1 ∨ (if x0 < x1 then (1 : Int) else -1) = -1 := by
    split_ifs <;> simp
  have hsy : (if y0 < y1 then (1 : Int) else -1) = 1 ∨ (if y0 < y1 then (1 : Int) else -1) = -1 := by
    split_ifs <;> simp
  have hrun : draw_line_Y fuel pic x0 y0 x1 y1 yval =
      draw_line_loop a (-b) (if x0 < x1 then 1 else -1) (if y0 < y1 then 1 else -1)
        x1 y1 yval fuel pic x0 y0 (a + -b) := by
    unfold draw_line_Y
    rw [int_chk_lit (x1 - x0) (by omega) (by omega)]
    simp only [Except.bind, hA]
    rw [int_chk_lit a (by omega) (by omega)]
    simp only [Except.bind]
    rw [int_chk_lit (y1 - y0) (by omega) (by omega)]
    simp only [Except.bind, hB]
    rw [int_chk_lit b (by omega) (by omega)]
    simp only [Except.bind]
    rw [int_chk_lit (a + -b) (by omega) (by omega)]
  obtain ⟨pts, hloop, hhead, hlast, hlen⟩ :=
    draw_line_loop_spec a b (if x0 < x1 then 1 else -1) (if y0 < y1 then 1 else -1) x1 y1 yval
      ha hb hdx hdy hsx hsy hx1 hy1 fuel pic x0 y0 (a + -b) a b ha (le_refl _) hb (le_refl _)
      (by rcases hax with ⟨h1, h2⟩ | ⟨h1, h2⟩
          · rw [if_pos h1]; omega
          · rw [if_neg h1]; omega)
      (by rcases hay with ⟨h1, h2⟩ | ⟨h1, h2⟩
          · rw [if_pos h1]; omega
          · rw [if_neg h1]; omega)
      (by ring) (by omega) (by omega) hx0 hy0 hfuel
  obtain ⟨new, hnew, hin⟩ := foldl_put_Y_stores yval pts pic
  refine ⟨pts, new, ?_, hnew, hhead, hlast, hlen, ?_⟩
  · rw [hrun, hloop, hnew]
  · intro s hs
    obtain ⟨h1, h2, h3, h4, _, _⟩ := hin s hs
    exact ⟨h1, h2, h3, h4⟩

/-- C18 witness: the line from `(-2, 1)` to `(3, -1)` on a 640 x 480
picture, with a budget of 8 iterations. -/
theorem line_terminates_witness :
    ∃ (pts : List (Int × Int)) (new : List (Int × Int × Nat)),
      draw_line_Y 8 blank (-2) 1 3 (-1) 128 = .ok { blank with Y := blank.Y ++ new } ∧
      pts.foldl (fun p q => put_Y p q.1 q.2 128) blank = { blank with Y := blank.Y ++ new } ∧
      pts.head? = some (-2, 1) ∧ pts.getLast? = some (3, -1) ∧
      (pts.length : Int) ≤ |3 - -2| + |-1 - 1| + 1 ∧
      ∀ s ∈ new, 0 ≤ s.1 ∧ s.1 < blank.W ∧ 0 ≤ s.2.1 ∧ s.2.1 < blank.H :=
  line_terminates blank (-2) 1 3 (-1) 128 8 (by decide) (by decide) (by decide) (by decide)
    (by decide) (by decide) (by decide)

/-! ## C19: rectangle clipping -/

theorem int_chk_ok (v : Int) (h1 : INT_MIN ≤ v) (h2 : v ≤ INT_MAX) : int_chk v = .ok v := by
  simp [int_chk, h1, h2]

theorem mem_fill_rows (x0 y0 : Int) (yval : Nat) (rw rh : Nat) (px py : Int) (v : Nat) :
    (px, py, v) ∈ fill_rows x0 y0 yval rw rh ↔
      v = yval ∧ x0 ≤ px ∧ px < x0 + rw ∧ y0 ≤ py ∧ py < y0 + rh := by
  simp only [fill_rows, List.mem_flatMap, List.mem_map, List.mem_range, Prod.mk.injEq]
  constructor
  · rintro ⟨j, hj, i, hi, h1, h2, h3⟩
    refine ⟨h3.symm, ?_, ?_, ?_, ?_⟩ <;> omega
  · rintro ⟨rfl, h1, h2, h3, h4⟩
    exact ⟨(py - y0).toNat, by omega, (px - x0).toNat, by omega, by omega, by omega, rfl⟩

/-- A rectangle call that returns before the fill loop, when no pixel is in
the target set `I`. -/
theorem rect_result_empty (pic : picture_t) (yval : Nat) (I : Int → Int → Prop)
    (h : ∀ px py, ¬ I px py) :
    ∃ new, (Except.ok pic : Except DrawFault picture_t) = .ok { pic with Y := pic.Y ++ new } ∧
      (∀ px py v, (px, py, v) ∈ new ↔ v = yval ∧ I px py) ∧
      ((¬ ∃ px py, I px py) → new = []) := by
  refine ⟨[], by simp, ?_, fun _ => rfl⟩
  intro px py v
  simp [h px py]

/-- A rectangle call that fills the box `[x0, x1) x [y0, y1)`, when that box
is the target set `I`. -/
theorem rect_result_fill (pic : picture_t) (yval : Nat) (I : Int → Int → Prop)
    (x0 y0 x1 y1 : Int)
    (h : ∀ px py, (x0 ≤ px ∧ px < x1 ∧ y0 ≤ py ∧ py < y1) ↔ I px py) :
    ∃ new, (Except.ok { pic with
          Y := pic.Y ++ fill_rows x0 y0 yval (x1 - x0).toNat (y1 - y0).toNat } :
        Except DrawFault picture_t) = .ok { pic with Y := pic.Y ++ new } ∧
      (∀ px py v, (px, py, v) ∈ new ↔ v = yval ∧ I px py) ∧
      ((¬ ∃ px py, I px py) → new = []) := by
  have hm : ∀ px py v, (px, py, v) ∈ fill_rows x0 y0 yval (x1 - x0).toNat (y1 - y0).toNat ↔
      v = yval ∧ I px py := by
    intro px py v
    rw [mem_fill_rows, ← h px py]
    constructor
    · rintro ⟨hv, h1, h2, h3, h4⟩
      exact ⟨hv, h1, by omega, h3, by omega⟩
    · rintro ⟨hv, h1, h2, h3, h4⟩
      exact ⟨hv, h1, by omega, h3, by omega⟩
  refine ⟨_, rfl, hm, ?_⟩
  intro hempty
  apply List.eq_nil_iff_forall_not_mem.mpr
  rintro ⟨px, py, v⟩ hin
  exact hempty ⟨px, py, ((hm px py v).mp hin).2⟩

/-- One axis of the clipping, rejected by the first test. -/
theorem clip_axis_out (x xw W px lo hi : Int)
    (hlo : (if xw < x then xw else x) = lo) (hhi : (if xw < x then x else xw) = hi)
    (h : lo ≥ W ∨ hi ≤ 0) : ¬ (min x xw ≤ px ∧ px < max x xw ∧ 0 ≤ px ∧ px < W) := by
  split_ifs at hlo hhi <;> omega

/-- One axis of the clipping: the clipped interval is the intersection. -/
theorem clip_axis_in (x xw W px lo hi loc hic : Int)
    (hlo : (if xw < x then xw else x) = lo) (hhi : (if xw < x then x else xw) = hi)
    (hloc : (if lo < 0 then 0 else lo) = loc) (hhic : (if hi > W then W else hi) = hic) :
    (loc ≤ px ∧ px < hic) ↔ (min x xw ≤ px ∧ px < max x xw ∧ 0 ≤ px ∧ px < W) := by
  split_ifs at hlo hhi hloc hhic <;> omega

/-- C19: for every `(x, y, w, h)` whose corner sums `x + w` and `y + h` are
`int` values (negative `w` or `h` included) and every visible size,
`draw_solid_rect_Y` ends without a fault and stores `yval` into exactly the
pixels of the intersection of the normalised rectangle
`[min x (x+w), max x (x+w)) x [min y (y+h), max y (y+h))` with the visible
area `[0, W) x [0, H)`; it stores nothing when that intersection is empty. -/
theorem solid_rect_clips (pic : picture_t) (x y w h : Int) (yval : Nat)
    (hxw : INT_MIN ≤ x + w ∧ x + w ≤ INT_MAX) (hyh : INT_MIN ≤ y + h ∧ y + h ≤ INT_MAX) :
    ∃ new, draw_solid_rect_Y pic x y w h yval = .ok { pic with Y := pic.Y ++ new } ∧
      (∀ px py v, (px, py, v) ∈ new ↔
        v = yval ∧ ((min x (x + w) ≤ px ∧ px < max x (x + w) ∧ 0 ≤ px ∧ px < pic.W) ∧
          (min y (y + h) ≤ py ∧ py < max y (y + h) ∧ 0 ≤ py ∧ py < pic.H))) ∧
      ((¬ ∃ px py, (min x (x + w) ≤ px ∧ px < max x (x + w) ∧ 0 ≤ px ∧ px < pic.W) ∧
          (min y (y + h) ≤ py ∧ py < max y (y + h) ∧ 0 ≤ py ∧ py < pic.H)) → new = []) := by
  simp only [draw_solid_rect_Y, int_chk_ok _ hxw.1 hxw.2, int_chk_ok _ hyh.1 hyh.2, Except.bind]
  generalize hlox : (if x + w < x then x + w else x) = lox
  generalize hhix : (if x + w < x then x else x + w) = hix
  generalize hloy : (if y + h < y then y + h else y) = loy
  generalize hhiy : (if y + h < y then y else y + h) = hiy
  generalize hlocx : (if lox < 0 then 0 else lox) = locx
  generalize hhicx : (if hix > pic.W then pic.W else hix) = hicx
  generalize hlocy : (if loy < 0 then 0 else loy) = locy
  generalize hhicy : (if hiy > pic.H then pic.H else hiy) = hicy
  split
  · next hout =>
    apply rect_result_empty
    intro px py hI
    rcases hout with h1 | h1 | h1 | h1
    · exact clip_axis_out x (x + w) pic.W px lox hix hlox hhix (Or.inl h1) hI.1
    · exact clip_axis_out y (y + h) pic.H py loy hiy hloy hhiy (Or.inl h1) hI.2
    · exact clip_axis_out x (x + w) pic.W px lox hix hlox hhix (Or.inr h1) hI.1
    · exact clip_axis_out y (y + h) pic.H py loy hiy hloy hhiy (Or.inr h1) hI.2
  · next hin =>
    push_neg at hin
    have hx := fun px => clip_axis_in x (x + w) pic.W px lox hix locx hicx hlox hhix hlocx hhicx
    have hy := fun py => clip_axis_in y (y + h) pic.H py loy hiy locy hicy hloy hhiy hlocy hhicy
    split
    · next hdeg =>
      apply rect_result_empty
      intro px py hI
      have h1 := (hx px).mpr hI.1
      have h2 := (hy py).mpr hI.2
      omega
    · next hpos =>
      apply rect_result_fill
      intro px py
      rw [← hx px, ← hy py]
      tauto

/-- C19 witness: a rectangle with negative width and height that sticks out
of the top-left corner of a 640 x 480 picture. -/
theorem solid_rect_clips_witness :
    ∃ new, draw_solid_rect_Y blank 3 2 (-5) (-4) 200 = .ok { blank with Y := blank.Y ++ new } ∧
      (∀ px py v, (px, py, v) ∈ new ↔
        v = 200 ∧ ((min 3 (3 + -5) ≤ px ∧ px < max 3 (3 + -5) ∧ 0 ≤ px ∧ px < blank.W) ∧
          (min 2 (2 + -4) ≤ py ∧ py < max 2 (2 + -4) ∧ 0 ≤ py ∧ py < blank.H))) ∧
      ((¬ ∃ px py, (min 3 (3 + -5) ≤ px ∧ px < max 3 (3 + -5) ∧ 0 ≤ px ∧ px < blank.W) ∧
          (min 2 (2 + -4) ≤ py ∧ py < max 2 (2 + -4) ∧ 0 ≤ py ∧ py < blank.H)) → new = []) :=
  solid_rect_clips blank 3 2 (-5) (-4) 200 (by decide) (by decide)

end SideinfoOverlay
